import Mathlib

/-!
# Verification of the neo4j-data-insert-browser bulk-load pipeline

Shallow embedding of the two streaming upload route handlers of the
repository (`src/app/api/upload-node/route.ts` and the relationship upload
route found in `src/unnamed/part_003`), together with proofs of the claims
about them.

A CSV row parsed by papaparse with `header: true` is a string-keyed record;
we embed it as an association list `List (String × String)` in header order.
JavaScript numbers used for the progress percentage are embedded as `ℚ`.
The event stream pushed through the `ReadableStream` controller and the
operations issued against the neo4j driver are both recorded in one
interleaved trace (`List Item`), so that claims about ordering between
store writes and progress emissions can be stated.

The store is modelled as a graph (a list of nodes and a list of
relationships).  The semantics of the two Cypher write queries is embedded
directly:
* node batch: `UNWIND $batch AS row CREATE (n:LABEL) SET n = row` creates
  one node per batch row, `count(n)` = batch length;
* relationship batch: `MATCH (from {id: row.FROM_ID}) MATCH (to {id: row.TO_ID})
  CREATE (from)-[r:TYPE props]->(to)` creates one relationship per pair of
  matching endpoint nodes (matching on the `id` property only), so
  `count(r)` for a row is the product of the two match counts.

Failure of the store is modelled by parameters of the run input:
`driverFails` (the `neo4j.driver` call throws), `indexFails` (the
`CREATE INDEX` statement throws — caught and ignored by the code) and
`failAt` (the index of the `executeWrite` call that throws, if any).
-/

/-- A parsed CSV row: `Record<string, string>` as an association list in
header order (papaparse yields one key per header present on the line). -/
abbrev Row := List (String × String)

/-- `row.K` in JavaScript, with `undefined` and the empty string both
collapsing to `""` (both are falsy in the `if (!label)` test). -/
def rowVal (k : String) (r : Row) : String := ((r.lookup k).getD "")

/-- The keys of a row, in order (`Object.keys(row)`). -/
def rowKeys (r : Row) : List String := r.map Prod.fst

/-- `const { LABEL: _, ...properties } = row`: the row with the `LABEL`
key removed. -/
def stripLabel (r : Row) : Row := r.filter (fun p => p.1 ≠ "LABEL")

/-- `parsedData` of the upload routes: a successfully parsed CSV file. -/
structure ParsedCSVData where
  fileName : String
  headers : List String
  rows : List Row
  rowCount : Nat
deriving DecidableEq, Repr

/-- One input file: its name plus the outcome of `file.text()` +
`Papa.parse` (an exception message, or headers and data rows). -/
structure InFile where
  name : String
  parseResult : Except String (List String × List Row)
deriving Repr

/-- The input to one pipeline run: the uploaded files, the three
connection headers (absent or present), and the store-failure behaviour. -/
structure RunInput where
  files : List InFile
  connectionUrl : Option String
  username : Option String
  password : Option String
  driverFails : Bool
  indexFails : Bool
  failAt : Option Nat
  failMsg : String
deriving Repr

/-- Truthiness of a connection header: `null` and `""` are falsy. -/
def connPresent (o : Option String) : Bool :=
  match o with
  | none => false
  | some s => s ≠ ""

/-- A node of the store graph. -/
structure GNode where
  label : String
  props : Row
deriving DecidableEq, Repr

/-- A relationship of the store graph. -/
structure GRel where
  relType : String
  props : Row
deriving DecidableEq, Repr

/-- The store contents. -/
structure Graph where
  nodes : List GNode
  rels : List GRel
deriving DecidableEq, Repr

/-- Events pushed into the response stream: a progress line, a terminal
error line, or the terminal success line. -/
inductive Event where
  | progress (percent : ℚ) (message : String)
  | error (message : String) (details : List String)
  | success (processedFiles : Nat) (totalRows : Nat) (message : String)
deriving DecidableEq, Repr

/-- Operations issued against the neo4j driver. -/
inductive Op where
  | openDriver
  | openSession
  | runIndexQuery
  | writeNodes (label : String) (batch : List Row)
  | writeRels (relType : String) (propertyKeys : List String) (batch : List Row)
  | closeSession
  | closeDriver
deriving DecidableEq, Repr

/-- One element of the interleaved run trace. -/
inductive Item where
  | ev (e : Event)
  | op (o : Op)
deriving DecidableEq, Repr

/-- The events of a trace. -/
def eventsOf (items : List Item) : List Event :=
  items.filterMap (fun it => match it with | .ev e => some e | .op _ => none)

/-- The store operations of a trace. -/
def opsOf (items : List Item) : List Op :=
  items.filterMap (fun it => match it with | .op o => some o | .ev _ => none)

/-- The percents of the progress events of a trace, in emission order. -/
def progressPercents (items : List Item) : List ℚ :=
  items.filterMap (fun it =>
    match it with
    | .ev (.progress p _) => some p
    | _ => none)

/-- Terminal events: an error line or the success line. -/
def isTerminal : Event → Bool
  | .error _ _ => true
  | .success _ _ _ => true
  | .progress _ _ => false

/-- Number of terminal events of a trace. -/
def terminalCount (items : List Item) : Nat :=
  ((eventsOf items).filter isTerminal).length

/-- `JSON.stringify`-level equality is irrelevant here; a run is summarised
by whether its unique terminal event is the success line. -/
def successEvents (items : List Item) : List (Nat × Nat) :=
  items.filterMap (fun it =>
    match it with
    | .ev (.success pf tr _) => some (pf, tr)
    | _ => none)

/-- `Math.round` on a JavaScript number: round half away from zero is
`⌊x + 1/2⌋` for the non-negative arguments that occur here. -/
def jsRound (q : ℚ) : ℚ := ((⌊q + 1/2⌋ : ℤ) : ℚ)

/-- Insert a row into the insertion-ordered grouping map
(`Map<string, Record<string,string>[]>` built with `has`/`set`/`push`). -/
def insertGroup (k : String) (v : Row) : List (String × List Row) → List (String × List Row)
  | [] => [(k, [v])]
  | (k', vs) :: rest =>
      if k' = k then (k', vs ++ [v]) :: rest else (k', vs) :: insertGroup k v rest

/-- Group the rows of a file by the value of the grouping column `key`
(`LABEL` or `TYPE`), storing `proj row` (the node route strips the `LABEL`
key; the relationship route keeps the whole row).  Rows whose key value is
empty or absent are skipped (`if (!label) continue`). -/
def groupRows (key : String) (proj : Row → Row) (rows : List Row) : List (String × List Row) :=
  rows.foldl
    (fun m r => if rowVal key r = "" then m else insertGroup (rowVal key r) (proj r) m) []

/-- Fuel-driven slicing loop; the fuel only bounds the recursion depth. -/
def sliceBatchesAux : Nat → Nat → List Row → List (List Row)
  | 0, _, _ => []
  | fuel + 1, batchSize, rows =>
      if rows.isEmpty ∨ batchSize = 0 then []
      else rows.take batchSize :: sliceBatchesAux fuel batchSize (rows.drop batchSize)

/-- `for (let i = 0; i < rows.length; i += batchSize) rows.slice(i, i + batchSize)`. -/
def sliceBatches (batchSize : Nat) (rows : List Row) : List (List Row) :=
  sliceBatchesAux rows.length batchSize rows

lemma sliceBatchesAux_congr :
    ∀ (n fuel fuel' : Nat) (k : Nat) (rows : List Row), rows.length = n →
    n ≤ fuel → n ≤ fuel' →
    sliceBatchesAux fuel k rows = sliceBatchesAux fuel' k rows := by
  intro n
  induction n using Nat.strong_induction_on with
  | _ n ih =>
    intro fuel fuel' k rows hn hf hf'
    cases rows with
    | nil =>
      cases fuel with
      | zero =>
        cases fuel' with
        | zero => rfl
        | succ f' => simp [sliceBatchesAux]
      | succ f =>
        cases fuel' with
        | zero => simp [sliceBatchesAux]
        | succ f' => simp [sliceBatchesAux]
    | cons r rest =>
      have hpos : 0 < n := by simp at hn; omega
      cases fuel with
      | zero => omega
      | succ f =>
        cases fuel' with
        | zero => omega
        | succ f' =>
          by_cases hk : k = 0
          · simp [sliceBatchesAux, hk]
          · simp only [sliceBatchesAux]
            rw [if_neg (by simp [hk]), if_neg (by simp [hk])]
            congr 1
            apply ih (((r :: rest).drop k).length) (by simp at hn ⊢; omega) f f' k _ rfl
            · simp at hn ⊢
              omega
            · simp at hn ⊢
              omega

lemma sliceBatches_eq (batchSize : Nat) (rows : List Row) :
    sliceBatches batchSize rows =
      if rows.isEmpty ∨ batchSize = 0 then []
      else rows.take batchSize :: sliceBatches batchSize (rows.drop batchSize) := by
  cases rows with
  | nil => simp [sliceBatches, sliceBatchesAux]
  | cons r rest =>
    by_cases hk : batchSize = 0
    · simp [sliceBatches, sliceBatchesAux, hk]
    · unfold sliceBatches
      simp only [List.length_cons, sliceBatchesAux]
      rw [if_neg (by simp [hk]), if_neg (by simp [hk])]
      congr 1
      apply sliceBatchesAux_congr (((r :: rest).drop batchSize).length) _ _ batchSize _ rfl
      · simp
        omega
      · simp

/-- The node batch size constant of `upload-node/route.ts`. -/
def nodeBatchSize : Nat := 1000

/-- The relationship batch size constant of the relationship route. -/
def relBatchSize : Nat := 5000

/-- `REQUIRED_COLUMNS` of the relationship route. -/
def REQUIRED_COLUMNS : List String := ["TYPE", "FROM_LABEL", "FROM_ID", "TO_LABEL", "TO_ID"]

/-- Nodes of the graph whose `id` property equals the given row field
(`MATCH (n {id: row.F})`; a missing field is `null` and matches nothing). -/
def idMatches (nodes : List GNode) (v : Option String) : Nat :=
  match v with
  | none => 0
  | some s => (nodes.filter (fun n => n.props.lookup "id" = some s)).length

/-- `count(r)` contributed by one relationship row: one relationship per
pair of endpoint matches (the `MATCH` clauses form a cross product). -/
def createdForRow (nodes : List GNode) (r : Row) : Nat :=
  idMatches nodes (r.lookup "FROM_ID") * idMatches nodes (r.lookup "TO_ID")

/-- The property map written on a created relationship: the Cypher literal
`{k₁: row.k₁, ...}` over `propertyKeys`; a key the row lacks is `null` and
sets no property. -/
def relProps (propertyKeys : List String) (r : Row) : Row :=
  propertyKeys.filterMap (fun k => (r.lookup k).map (fun v => (k, v)))

/-- Does the `executeWrite` with this index throw? -/
def writeFails (failAt : Option Nat) (widx : Nat) : Bool :=
  match failAt with
  | none => false
  | some k => k = widx

/-- Mutable state threaded through the writing phase: `totalInserted` /
`totalCreated`, `processedRows`, the number of `executeWrite` calls so
far, and the store contents. -/
structure WState where
  total : Nat
  processed : Nat
  widx : Nat
  g : Graph
deriving Repr

/-- Percent of the per-file parsing progress line:
`5 + (fileIndex / files.length) * 10`. -/
def parsePercent (i n : Nat) : ℚ := 5 + ((i : ℚ) / (n : ℚ)) * 10

/-- The parsing loop of the node route: emits one progress line per file,
validates headers and the `LABEL` column, and either returns the parsed
files plus the total row count or stops with a terminal error already in
the trace. -/
def nodeParseLoop (n : Nat) : Nat → List InFile → List ParsedCSVData → Nat →
    List Item × Option (List ParsedCSVData × Nat)
  | _, [], acc, total => ([], some (acc, total))
  | i, f :: rest, acc, total =>
    let pItem := Item.ev (.progress (parsePercent i n) ("Parsing " ++ f.name ++ "..."))
    match f.parseResult with
    | .error msg =>
        ([pItem, Item.ev (.error ("Failed to parse file: " ++ f.name) [msg])], none)
    | .ok (headers, rows) =>
        if headers.isEmpty then
          ([pItem, Item.ev (.error ("File \"" ++ f.name ++ "\" has no headers")
              ["The CSV file must have a header row with column names."])], none)
        else if "LABEL" ∈ headers then
          let pd : ParsedCSVData := ⟨f.name, headers, rows, rows.length⟩
          let res := nodeParseLoop n (i + 1) rest (acc ++ [pd]) (total + rows.length)
          (pItem :: res.1, res.2)
        else
          ([pItem, Item.ev (.error ("File \"" ++ f.name ++ "\" is missing required \"LABEL\" column")
              ["The CSV file must have a column named \"LABEL\" for the node type.",
               "Found columns: " ++ String.intercalate ", " headers])], none)

/-- The inner batch loop of the node route over one label's batches:
each batch is one `executeWrite` issuing the `UNWIND ... CREATE` query;
`count(n)` equals the batch length and the created nodes carry the group
label and the row (with `LABEL` already stripped) as properties.  The
`Bool` is false when an `executeWrite` threw (fatal). -/
def nodeWriteBatches (failAt : Option Nat) (label : String) :
    List (List Row) → WState → List Item × WState × Bool
  | [], s => ([], s, true)
  | b :: bs, s =>
    if writeFails failAt s.widx then
      ([], { s with widx := s.widx + 1 }, false)
    else
      let s' : WState := ⟨s.total + b.length, s.processed, s.widx + 1,
        ⟨s.g.nodes ++ b.map (fun r => ⟨label, r⟩), s.g.rels⟩⟩
      let res := nodeWriteBatches failAt label bs s'
      (Item.op (.writeNodes label b) :: res.1, res.2)

/-- The loop of the node route over the label groups of one file. -/
def nodeWriteGroups (failAt : Option Nat) :
    List (String × List Row) → WState → List Item × WState × Bool
  | [], s => ([], s, true)
  | (label, rows) :: gs, s =>
    let res := nodeWriteBatches failAt label (sliceBatches nodeBatchSize rows) s
    if res.2.2 then
      let res2 := nodeWriteGroups failAt gs res.2.1
      (res.1 ++ res2.1, res2.2)
    else res

/-- The loop of the node route over the parsed files. -/
def nodeWriteFiles (failAt : Option Nat) :
    List ParsedCSVData → WState → List Item × WState × Bool
  | [], s => ([], s, true)
  | pf :: pfs, s =>
    let res := nodeWriteGroups failAt (groupRows "LABEL" stripLabel pf.rows) s
    if res.2.2 then
      let res2 := nodeWriteFiles failAt pfs res.2.1
      (res.1 ++ res2.1, res2.2)
    else res

/-- `POST` of `src/app/api/upload-node/route.ts`: the full trace of one
node upload run, plus the resulting store contents. -/
def uploadNodes (inp : RunInput) (g0 : Graph) : List Item × Graph :=
  if inp.files.isEmpty then
    ([Item.ev (.error "No files provided" [])], g0)
  else if !(connPresent inp.connectionUrl && connPresent inp.username &&
      connPresent inp.password) then
    ([Item.ev (.error "Neo4j connection information missing"
        ["Please ensure you are connected to Neo4j"])], g0)
  else
    let pre : List Item := [Item.ev (.progress 5 "Parsing CSV files...")]
    let pr := nodeParseLoop inp.files.length 0 inp.files [] 0
    match pr.2 with
    | none => (pre ++ pr.1, g0)
    | some (parsedFiles, totalRows) =>
      let afterParse := pre ++ pr.1 ++
        [Item.ev (.progress 15 ("Parsed " ++ toString totalRows ++ " rows from " ++
            toString inp.files.length ++ " file(s)")),
         Item.ev (.progress 20 "Connecting to Neo4j...")]
      if inp.driverFails then
        (afterParse ++ [Item.ev (.error "Failed to insert data into Neo4j" [inp.failMsg])], g0)
      else
        let opened : List Item := [Item.op .openDriver, Item.op .openSession,
          Item.ev (.progress 25 "Starting data insertion...")]
        let wr := nodeWriteFiles inp.failAt parsedFiles ⟨0, 0, 0, g0⟩
        if wr.2.2 then
          (afterParse ++ opened ++ wr.1 ++
            [Item.ev (.progress 95 "Finalizing..."),
             Item.ev (.progress 100 "Upload complete!"),
             Item.ev (.success parsedFiles.length wr.2.1.total
               ("Successfully inserted " ++ toString wr.2.1.total ++ " nodes from " ++
                toString parsedFiles.length ++ " file(s)")),
             Item.op .closeSession, Item.op .closeDriver], wr.2.1.g)
        else
          (afterParse ++ opened ++ wr.1 ++
            [Item.op .closeSession,
             Item.ev (.error "Failed to insert data into Neo4j" [inp.failMsg]),
             Item.op .closeDriver], wr.2.1.g)

/-- The parsing loop of the relationship route: like the node one but the
validation requires all of `REQUIRED_COLUMNS`. -/
def relParseLoop (n : Nat) : Nat → List InFile → List ParsedCSVData → Nat →
    List Item × Option (List ParsedCSVData × Nat)
  | _, [], acc, total => ([], some (acc, total))
  | i, f :: rest, acc, total =>
    let pItem := Item.ev (.progress (parsePercent i n) ("Parsing " ++ f.name ++ "..."))
    match f.parseResult with
    | .error msg =>
        ([pItem, Item.ev (.error ("Failed to parse file: " ++ f.name) [msg])], none)
    | .ok (headers, rows) =>
        if headers.isEmpty then
          ([pItem, Item.ev (.error ("File \"" ++ f.name ++ "\" has no headers")
              ["The CSV file must have a header row with column names."])], none)
        else
          let missingColumns := REQUIRED_COLUMNS.filter (fun c => !(headers.contains c))
          if missingColumns.isEmpty then
            let pd : ParsedCSVData := ⟨f.name, headers, rows, rows.length⟩
            let res := relParseLoop n (i + 1) rest (acc ++ [pd]) (total + rows.length)
            (pItem :: res.1, res.2)
          else
            ([pItem, Item.ev (.error ("File \"" ++ f.name ++ "\" is missing required columns")
                ["Required columns: " ++ String.intercalate ", " REQUIRED_COLUMNS,
                 "Missing columns: " ++ String.intercalate ", " missingColumns,
                 "Found columns: " ++ String.intercalate ", " headers])], none)

/-- The inner batch loop of the relationship route over one type's
batches.  The property keys of the Cypher literal come from the first row
of the batch; endpoint lookup is by the `id` property only; after each
successful batch a progress line is emitted at
`Math.round(30 + (processedRows / totalRows) * 65)`. -/
def relWriteBatches (failAt : Option Nat) (totalRows : Nat) (relType : String) :
    List (List Row) → WState → List Item × WState × Bool
  | [], s => ([], s, true)
  | b :: bs, s =>
    if writeFails failAt s.widx then
      ([], { s with widx := s.widx + 1 }, false)
    else
      let propertyKeys := (rowKeys (b.headD [])).filter (fun k => !(REQUIRED_COLUMNS.contains k))
      let created := (b.map (fun r => createdForRow s.g.nodes r)).sum
      let newRels := (b.map (fun r =>
        List.replicate (createdForRow s.g.nodes r)
          (⟨relType, relProps propertyKeys r⟩ : GRel))).flatten
      let s' : WState := ⟨s.total + created, s.processed + b.length, s.widx + 1,
        ⟨s.g.nodes, s.g.rels ++ newRels⟩⟩
      let prog := Item.ev (.progress (jsRound (30 + ((s'.processed : ℚ) / (totalRows : ℚ)) * 65))
        ("Created " ++ toString s'.processed ++ "/" ++ toString totalRows ++ " relationships..."))
      let res := relWriteBatches failAt totalRows relType bs s'
      (Item.op (.writeRels relType propertyKeys b) :: prog :: res.1, res.2)

/-- The loop of the relationship route over the type groups of one file. -/
def relWriteGroups (failAt : Option Nat) (totalRows : Nat) :
    List (String × List Row) → WState → List Item × WState × Bool
  | [], s => ([], s, true)
  | (relType, rows) :: gs, s =>
    let res := relWriteBatches failAt totalRows relType (sliceBatches relBatchSize rows) s
    if res.2.2 then
      let res2 := relWriteGroups failAt totalRows gs res.2.1
      (res.1 ++ res2.1, res2.2)
    else res

/-- The loop of the relationship route over the parsed files. -/
def relWriteFiles (failAt : Option Nat) (totalRows : Nat) :
    List ParsedCSVData → WState → List Item × WState × Bool
  | [], s => ([], s, true)
  | pf :: pfs, s =>
    let res := relWriteGroups failAt totalRows (groupRows "TYPE" id pf.rows) s
    if res.2.2 then
      let res2 := relWriteFiles failAt totalRows pfs res.2.1
      (res.1 ++ res2.1, res2.2)
    else res

/-- `POST` of the relationship upload route (`src/unnamed/part_003`): the
full trace of one relationship upload run, plus the resulting store
contents.  The `CREATE INDEX IF NOT EXISTS` statement is issued before
the first write; a failure of it is caught and ignored by the code
(`indexFails` has no observable effect on the trace). -/
def uploadRelationships (inp : RunInput) (g0 : Graph) : List Item × Graph :=
  if inp.files.isEmpty then
    ([Item.ev (.error "No files provided" [])], g0)
  else if !(connPresent inp.connectionUrl && connPresent inp.username &&
      connPresent inp.password) then
    ([Item.ev (.error "Neo4j connection information missing"
        ["Please ensure you are connected to Neo4j"])], g0)
  else
    let pre : List Item := [Item.ev (.progress 5 "Parsing CSV files...")]
    let pr := relParseLoop inp.files.length 0 inp.files [] 0
    match pr.2 with
    | none => (pre ++ pr.1, g0)
    | some (parsedFiles, totalRows) =>
      let afterParse := pre ++ pr.1 ++
        [Item.ev (.progress 15 ("Parsed " ++ toString totalRows ++ " rows from " ++
            toString inp.files.length ++ " file(s)")),
         Item.ev (.progress 20 "Connecting to Neo4j...")]
      if inp.driverFails then
        (afterParse ++ [Item.ev (.error "Failed to create relationships in Neo4j" [inp.failMsg])], g0)
      else
        let opened : List Item := [Item.op .openDriver, Item.op .openSession,
          Item.ev (.progress 25 "Checking/creating indexes..."),
          Item.op .runIndexQuery,
          Item.ev (.progress 30 "Starting relationship creation...")]
        let wr := relWriteFiles inp.failAt totalRows parsedFiles ⟨0, 0, 0, g0⟩
        if wr.2.2 then
          (afterParse ++ opened ++ wr.1 ++
            [Item.ev (.progress 95 "Finalizing..."),
             Item.ev (.progress 100 "Upload complete!"),
             Item.ev (.success parsedFiles.length wr.2.1.total
               ("Successfully created " ++ toString wr.2.1.total ++ " relationships from " ++
                toString parsedFiles.length ++ " file(s)")),
             Item.op .closeSession, Item.op .closeDriver], wr.2.1.g)
        else
          (afterParse ++ opened ++ wr.1 ++
            [Item.op .closeSession,
             Item.ev (.error "Failed to create relationships in Neo4j" [inp.failMsg]),
             Item.op .closeDriver], wr.2.1.g)

@[simp]
lemma progressPercents_nil : progressPercents [] = [] := rfl

@[simp]
lemma progressPercents_append (l₁ l₂ : List Item) :
    progressPercents (l₁ ++ l₂) = progressPercents l₁ ++ progressPercents l₂ :=
  List.filterMap_append ..

@[simp]
lemma progressPercents_cons_progress (p : ℚ) (m : String) (l : List Item) :
    progressPercents (Item.ev (.progress p m) :: l) = p :: progressPercents l := rfl

@[simp]
lemma progressPercents_cons_error (m : String) (d : List String) (l : List Item) :
    progressPercents (Item.ev (.error m d) :: l) = progressPercents l := rfl

@[simp]
lemma progressPercents_cons_success (a b : Nat) (m : String) (l : List Item) :
    progressPercents (Item.ev (.success a b m) :: l) = progressPercents l := rfl

@[simp]
lemma progressPercents_cons_op (o : Op) (l : List Item) :
    progressPercents (Item.op o :: l) = progressPercents l := rfl

@[simp]
lemma eventsOf_nil : eventsOf [] = [] := rfl

@[simp]
lemma eventsOf_append (l₁ l₂ : List Item) :
    eventsOf (l₁ ++ l₂) = eventsOf l₁ ++ eventsOf l₂ :=
  List.filterMap_append ..

@[simp]
lemma eventsOf_cons_ev (e : Event) (l : List Item) :
    eventsOf (Item.ev e :: l) = e :: eventsOf l := rfl

@[simp]
lemma eventsOf_cons_op (o : Op) (l : List Item) :
    eventsOf (Item.op o :: l) = eventsOf l := rfl

@[simp]
lemma opsOf_nil : opsOf [] = [] := rfl

@[simp]
lemma opsOf_append (l₁ l₂ : List Item) :
    opsOf (l₁ ++ l₂) = opsOf l₁ ++ opsOf l₂ :=
  List.filterMap_append ..

@[simp]
lemma opsOf_cons_ev (e : Event) (l : List Item) :
    opsOf (Item.ev e :: l) = opsOf l := rfl

@[simp]
lemma opsOf_cons_op (o : Op) (l : List Item) :
    opsOf (Item.op o :: l) = o :: opsOf l := rfl

@[simp]
lemma terminalCount_nil : terminalCount [] = 0 := rfl

@[simp]
lemma terminalCount_append (l₁ l₂ : List Item) :
    terminalCount (l₁ ++ l₂) = terminalCount l₁ + terminalCount l₂ := by
  simp [terminalCount, List.filter_append]

@[simp]
lemma terminalCount_cons_progress (p : ℚ) (m : String) (l : List Item) :
    terminalCount (Item.ev (.progress p m) :: l) = terminalCount l := rfl

@[simp]
lemma terminalCount_cons_error (m : String) (d : List String) (l : List Item) :
    terminalCount (Item.ev (.error m d) :: l) = terminalCount l + 1 := by
  simp [terminalCount, eventsOf, List.filter, isTerminal]

@[simp]
lemma terminalCount_cons_success (a b : Nat) (m : String) (l : List Item) :
    terminalCount (Item.ev (.success a b m) :: l) = terminalCount l + 1 := by
  simp [terminalCount, eventsOf, List.filter, isTerminal]

@[simp]
lemma terminalCount_cons_op (o : Op) (l : List Item) :
    terminalCount (Item.op o :: l) = terminalCount l := rfl

@[simp]
lemma successEvents_nil : successEvents [] = [] := rfl

@[simp]
lemma successEvents_append (l₁ l₂ : List Item) :
    successEvents (l₁ ++ l₂) = successEvents l₁ ++ successEvents l₂ :=
  List.filterMap_append ..

@[simp]
lemma successEvents_cons_progress (p : ℚ) (m : String) (l : List Item) :
    successEvents (Item.ev (.progress p m) :: l) = successEvents l := rfl

@[simp]
lemma successEvents_cons_error (m : String) (d : List String) (l : List Item) :
    successEvents (Item.ev (.error m d) :: l) = successEvents l := rfl

@[simp]
lemma successEvents_cons_success (a b : Nat) (m : String) (l : List Item) :
    successEvents (Item.ev (.success a b m) :: l) = (a, b) :: successEvents l := rfl

@[simp]
lemma successEvents_cons_op (o : Op) (l : List Item) :
    successEvents (Item.op o :: l) = successEvents l := rfl

/-- Glue two non-decreasing percent lists along a pivot value. -/
lemma chain_le_append {A B : List ℚ} (c : ℚ)
    (hA : A.Chain' (· ≤ ·)) (hB : B.Chain' (· ≤ ·))
    (hAc : ∀ a ∈ A, a ≤ c) (hcB : ∀ b ∈ B, c ≤ b) :
    (A ++ B).Chain' (· ≤ ·) := by
  rw [List.chain'_append]
  refine ⟨hA, hB, ?_⟩
  intro x hx y hy
  obtain ⟨h, rfl⟩ := List.mem_getLast?_eq_getLast hx
  have hxA : A.getLast h ∈ A := List.getLast_mem h
  have hyB : y ∈ B := by
    rw [List.eq_cons_of_mem_head? hy]
    exact List.mem_cons_self _ _
  exact le_trans (hAc _ hxA) (hcB y hyB)

lemma five_le_parsePercent (i n : Nat) : 5 ≤ parsePercent i n := by
  unfold parsePercent
  have h : 0 ≤ ((i : ℚ) / (n : ℚ)) * 10 := by positivity
  linarith

lemma parsePercent_le_15 {i n : Nat} (h : i < n) : parsePercent i n ≤ 15 := by
  unfold parsePercent
  have hn : (0 : ℚ) < n := by exact_mod_cast Nat.pos_of_ne_zero (by omega)
  have hq : (i : ℚ) / (n : ℚ) ≤ 1 := by
    rw [div_le_one hn]
    exact_mod_cast le_of_lt h
  linarith

lemma parsePercent_mono {i j : Nat} (n : Nat) (h : i ≤ j) :
    parsePercent i n ≤ parsePercent j n := by
  unfold parsePercent
  rcases Nat.eq_zero_or_pos n with h0 | h0
  · subst h0
    norm_num
  · have hn : (0 : ℚ) < n := by exact_mod_cast h0
    have hq : (i : ℚ) / (n : ℚ) ≤ (j : ℚ) / (n : ℚ) := by
      gcongr
    linarith

/-- A file the node route accepts: it parses, has headers, and has the
`LABEL` column. -/
def validNodeFile (f : InFile) : Bool :=
  match f.parseResult with
  | .error _ => false
  | .ok (headers, _) => !headers.isEmpty && headers.contains "LABEL"

/-- A file the relationship route accepts: it parses, has headers, and
has all of `REQUIRED_COLUMNS`. -/
def validRelFile (f : InFile) : Bool :=
  match f.parseResult with
  | .error _ => false
  | .ok (headers, _) =>
      !headers.isEmpty && REQUIRED_COLUMNS.all (fun c => headers.contains c)

/-- The `ParsedCSVData` a valid file turns into. -/
def parsedOf (f : InFile) : ParsedCSVData :=
  match f.parseResult with
  | .error _ => ⟨f.name, [], [], 0⟩
  | .ok (headers, rows) => ⟨f.name, headers, rows, rows.length⟩

lemma nodeParseLoop_spec (fs : List InFile) :
    ∀ (n i : Nat) (acc : List ParsedCSVData) (total : Nat), i + fs.length ≤ n →
    ((progressPercents (nodeParseLoop n i fs acc total).1).Chain' (· ≤ ·)
     ∧ (∀ q ∈ progressPercents (nodeParseLoop n i fs acc total).1,
         parsePercent i n ≤ q ∧ q ≤ 15)
     ∧ opsOf (nodeParseLoop n i fs acc total).1 = []
     ∧ successEvents (nodeParseLoop n i fs acc total).1 = []
     ∧ ((nodeParseLoop n i fs acc total).2 = none
          → terminalCount (nodeParseLoop n i fs acc total).1 = 1)
     ∧ (∀ pfs tot, (nodeParseLoop n i fs acc total).2 = some (pfs, tot)
          → terminalCount (nodeParseLoop n i fs acc total).1 = 0
            ∧ ∃ newFs, pfs = acc ++ newFs
                ∧ tot = total + (newFs.map (fun pf => pf.rows.length)).sum)) := by
  induction fs with
  | nil =>
    intro n i acc total hn
    simp [nodeParseLoop]
  | cons f rest ih =>
    intro n i acc total hn
    have hin : i < n := by simp at hn; omega
    have hle15 : parsePercent i n ≤ 15 := parsePercent_le_15 hin
    have h5 : 5 ≤ parsePercent i n := five_le_parsePercent i n
    simp only [nodeParseLoop]
    cases hpr : f.parseResult with
    | error msg =>
      simp [hle15, le_refl]
    | ok hr =>
      obtain ⟨headers, rows⟩ := hr
      by_cases hemp : headers.isEmpty
      · simp [hemp, hle15, le_refl]
      · by_cases hlab : "LABEL" ∈ headers
        · have hrec := ih n (i + 1) (acc ++ [⟨f.name, headers, rows, rows.length⟩])
            (total + rows.length) (by simp at hn ⊢; omega)
          have hmono : parsePercent i n ≤ parsePercent (i + 1) n :=
            parsePercent_mono n (Nat.le_succ i)
          simp only [hemp, hlab, if_true, if_false, Bool.false_eq_true]
          constructor
          · -- chain
            rw [progressPercents_cons_progress, List.chain'_cons']
            refine ⟨?_, hrec.1⟩
            intro y hy
            have hym : y ∈ progressPercents (nodeParseLoop n (i + 1) rest
                (acc ++ [⟨f.name, headers, rows, rows.length⟩]) (total + rows.length)).1 := by
              rw [List.eq_cons_of_mem_head? hy]
              exact List.mem_cons_self _ _
            exact le_trans hmono (hrec.2.1 y hym).1
          constructor
          · intro q hq
            rw [progressPercents_cons_progress] at hq
            rcases List.mem_cons.mp hq with h | h
            · exact ⟨le_of_eq h.symm, h ▸ hle15⟩
            · exact ⟨le_trans hmono (hrec.2.1 q h).1, (hrec.2.1 q h).2⟩
          constructor
          · simpa using hrec.2.2.1
          constructor
          · simpa using hrec.2.2.2.1
          constructor
          · intro hres
            simpa using hrec.2.2.2.2.1 hres
          · intro pfs tot hres
            obtain ⟨htc, newFs, hpfs, htot⟩ := hrec.2.2.2.2.2 pfs tot hres
            refine ⟨by simpa using htc, ⟨(⟨f.name, headers, rows, rows.length⟩ : ParsedCSVData) :: newFs, ?_, ?_⟩⟩
            · simpa using hpfs
            · simp at htot ⊢
              omega
        · simp [hemp, hlab, hle15, le_refl]

lemma relParseLoop_spec (fs : List InFile) :
    ∀ (n i : Nat) (acc : List ParsedCSVData) (total : Nat), i + fs.length ≤ n →
    ((progressPercents (relParseLoop n i fs acc total).1).Chain' (· ≤ ·)
     ∧ (∀ q ∈ progressPercents (relParseLoop n i fs acc total).1,
         parsePercent i n ≤ q ∧ q ≤ 15)
     ∧ opsOf (relParseLoop n i fs acc total).1 = []
     ∧ successEvents (relParseLoop n i fs acc total).1 = []
     ∧ ((relParseLoop n i fs acc total).2 = none
          → terminalCount (relParseLoop n i fs acc total).1 = 1)
     ∧ (∀ pfs tot, (relParseLoop n i fs acc total).2 = some (pfs, tot)
          → terminalCount (relParseLoop n i fs acc total).1 = 0
            ∧ ∃ newFs, pfs = acc ++ newFs
                ∧ tot = total + (newFs.map (fun pf => pf.rows.length)).sum)) := by
  induction fs with
  | nil =>
    intro n i acc total hn
    simp [relParseLoop]
  | cons f rest ih =>
    intro n i acc total hn
    have hin : i < n := by simp at hn; omega
    have hle15 : parsePercent i n ≤ 15 := parsePercent_le_15 hin
    have h5 : 5 ≤ parsePercent i n := five_le_parsePercent i n
    simp only [relParseLoop]
    cases hpr : f.parseResult with
    | error msg =>
      simp [hle15, le_refl]
    | ok hr =>
      obtain ⟨headers, rows⟩ := hr
      by_cases hemp : headers.isEmpty
      · simp [hemp, hle15, le_refl]
      · by_cases hmiss : ∀ c ∈ REQUIRED_COLUMNS, c ∈ headers
        · have hrec := ih n (i + 1) (acc ++ [⟨f.name, headers, rows, rows.length⟩])
            (total + rows.length) (by simp at hn ⊢; omega)
          have hmono : parsePercent i n ≤ parsePercent (i + 1) n :=
            parsePercent_mono n (Nat.le_succ i)
          have hfilt : (REQUIRED_COLUMNS.filter (fun c => !headers.contains c)) = [] := by
            rw [List.filter_eq_nil_iff]
            intro c hc
            simp [hmiss c hc]
          simp only [hemp, hfilt, List.isEmpty_nil, if_true, Bool.false_eq_true, if_false]
          constructor
          · rw [progressPercents_cons_progress, List.chain'_cons']
            refine ⟨?_, hrec.1⟩
            intro y hy
            have hym : y ∈ progressPercents (relParseLoop n (i + 1) rest
                (acc ++ [⟨f.name, headers, rows, rows.length⟩]) (total + rows.length)).1 := by
              rw [List.eq_cons_of_mem_head? hy]
              exact List.mem_cons_self _ _
            exact le_trans hmono (hrec.2.1 y hym).1
          constructor
          · intro q hq
            rw [progressPercents_cons_progress] at hq
            rcases List.mem_cons.mp hq with h | h
            · exact ⟨le_of_eq h.symm, h ▸ hle15⟩
            · exact ⟨le_trans hmono (hrec.2.1 q h).1, (hrec.2.1 q h).2⟩
          constructor
          · simpa using hrec.2.2.1
          constructor
          · simpa using hrec.2.2.2.1
          constructor
          · intro hres
            simpa using hrec.2.2.2.2.1 hres
          · intro pfs tot hres
            obtain ⟨htc, newFs, hpfs, htot⟩ := hrec.2.2.2.2.2 pfs tot hres
            refine ⟨by simpa using htc,
              ⟨(⟨f.name, headers, rows, rows.length⟩ : ParsedCSVData) :: newFs, ?_, ?_⟩⟩
            · simpa using hpfs
            · simp at htot ⊢
              omega
        · simp [hemp, hmiss, hle15, le_refl]

/-- The nodes one label group creates. -/
def groupNodes (g : String × List Row) : List GNode := g.2.map (fun r => ⟨g.1, r⟩)

/-- The nodes one parsed node file creates. -/
def fileNodes (pf : ParsedCSVData) : List GNode :=
  ((groupRows "LABEL" stripLabel pf.rows).map groupNodes).flatten

/-- The nodes a list of parsed node files creates. -/
def filesNodes (pfs : List ParsedCSVData) : List GNode := (pfs.map fileNodes).flatten

/-- The number of rows of a file whose grouping-key value is non-empty. -/
def groupedCount (key : String) (rows : List Row) : Nat :=
  (rows.filter (fun r => rowVal key r ≠ "")).length

/-- Total size of a grouping map. -/
def groupsSize (m : List (String × List Row)) : Nat :=
  (m.map (fun g => g.2.length)).sum

/-- The property keys the relationship route derives from a batch:
`Object.keys(batch[0])` minus the required columns. -/
def relKeys (b : List Row) : List String :=
  (rowKeys (b.headD [])).filter (fun k => !(REQUIRED_COLUMNS.contains k))

lemma groupsSize_insertGroup (k : String) (v : Row) (m : List (String × List Row)) :
    groupsSize (insertGroup k v m) = groupsSize m + 1 := by
  induction m with
  | nil => simp [insertGroup, groupsSize]
  | cons g rest ih =>
    obtain ⟨k', vs⟩ := g
    by_cases hk : k' = k
    · simp [insertGroup, hk, groupsSize]
      omega
    · simp [insertGroup, hk, groupsSize] at ih ⊢
      omega

lemma groupsSize_groupRows (key : String) (proj : Row → Row) (rows : List Row) :
    groupsSize (groupRows key proj rows) = groupedCount key rows := by
  suffices h : ∀ m, groupsSize (rows.foldl
      (fun m r => if rowVal key r = "" then m else insertGroup (rowVal key r) (proj r) m) m)
      = groupsSize m + groupedCount key rows by
    simpa [groupRows, groupsSize] using h []
  induction rows with
  | nil => simp [groupedCount]
  | cons r rest ih =>
    intro m
    by_cases hr : rowVal key r = ""
    · simp only [List.foldl_cons, hr, if_true]
      rw [ih m]
      simp [groupedCount, hr]
    · simp only [List.foldl_cons, hr, if_false]
      rw [ih (insertGroup (rowVal key r) (proj r) m), groupsSize_insertGroup]
      simp [groupedCount, hr]
      omega

/-- Invariant of the grouping map: every stored row comes from `l` via
`proj` and carries the group's non-empty key. -/
def goodGroup (key : String) (proj : Row → Row) (l : List Row) (g : String × List Row) : Prop :=
  g.1 ≠ "" ∧ ∀ v ∈ g.2, ∃ r ∈ l, rowVal key r = g.1 ∧ v = proj r

lemma insertGroup_good {key : String} {proj : Row → Row} {l : List Row}
    {m : List (String × List Row)} {k : String} {v : Row} {r : Row}
    (hm : ∀ g ∈ m, goodGroup key proj l g)
    (hk : rowVal key r = k) (hne : k ≠ "") (hv : v = proj r) (hr : r ∈ l) :
    ∀ g ∈ insertGroup k v m, goodGroup key proj l g := by
  induction m with
  | nil =>
    intro g hg
    simp [insertGroup] at hg
    subst hg
    exact ⟨hne, by
      intro x hx
      simp at hx
      exact ⟨r, hr, hk, hx ▸ hv⟩⟩
  | cons g0 rest ih =>
    obtain ⟨k', vs⟩ := g0
    intro g hg
    by_cases hkk : k' = k
    · simp only [insertGroup, hkk, if_true] at hg
      rcases List.mem_cons.mp hg with h | h
      · subst h
        refine ⟨hne, ?_⟩
        intro x hx
        rcases List.mem_append.mp hx with h | h
        · have := hm (k', vs) (List.mem_cons_self _ _)
          exact hkk ▸ (this.2 x h)
        · simp at h
          exact ⟨r, hr, hk, h ▸ hv⟩
      · exact hm g (List.mem_cons_of_mem _ h)
    · simp only [insertGroup, hkk, if_false] at hg
      rcases List.mem_cons.mp hg with h | h
      · exact h ▸ hm (k', vs) (List.mem_cons_self _ _)
      · exact ih (fun g' hg' => hm g' (List.mem_cons_of_mem _ hg')) g h

/-- Rows in any group of the grouping map come from the grouped rows and
share the group's non-empty key. -/
lemma groupRows_mem (key : String) (proj : Row → Row) (rows : List Row) :
    ∀ g ∈ groupRows key proj rows, goodGroup key proj rows g := by
  suffices h : ∀ (l' : List Row) (m : List (String × List Row)),
      (∀ g ∈ m, goodGroup key proj rows g) → (∀ r ∈ l', r ∈ rows) →
      ∀ g ∈ l'.foldl
        (fun m r => if rowVal key r = "" then m else insertGroup (rowVal key r) (proj r) m) m,
        goodGroup key proj rows g by
    exact h rows [] (by simp) (fun r hr => hr)
  intro l'
  induction l' with
  | nil =>
    intro m hm _ g hg
    exact hm g hg
  | cons r rest ih =>
    intro m hm hsub g hg
    simp only [List.foldl_cons] at hg
    by_cases hr : rowVal key r = ""
    · rw [if_pos hr] at hg
      exact ih m hm (fun x hx => hsub x (List.mem_cons_of_mem _ hx)) g hg
    · rw [if_neg hr] at hg
      exact ih (insertGroup (rowVal key r) (proj r) m)
        (insertGroup_good hm rfl hr rfl (hsub r (List.mem_cons_self _ _)))
        (fun x hx => hsub x (List.mem_cons_of_mem _ hx)) g hg

lemma sliceBatches_flatten {k : Nat} (hk : k ≠ 0) (rows : List Row) :
    (sliceBatches k rows).flatten = rows := by
  have H : ∀ (n : Nat) (rows : List Row), rows.length = n →
      (sliceBatches k rows).flatten = rows := by
    intro n
    induction n using Nat.strong_induction_on with
    | _ n ih =>
      intro rows hn
      rw [sliceBatches_eq]
      by_cases he : rows.isEmpty
      · simp [he, List.isEmpty_iff.mp he]
      · rw [if_neg (by simp [he, hk])]
        have h0 : 0 < rows.length := List.length_pos.mpr (by simpa [List.isEmpty_iff] using he)
        have hlt : (rows.drop k).length < n := by
          simp only [List.length_drop]
          omega
        rw [List.flatten_cons, ih _ hlt _ rfl, List.take_append_drop]
  exact H rows.length rows rfl

lemma sliceBatches_mem_ne_nil {k : Nat} (hk : k ≠ 0) (rows : List Row) :
    ∀ b ∈ sliceBatches k rows, b ≠ [] := by
  have H : ∀ (n : Nat) (rows : List Row), rows.length = n →
      ∀ b ∈ sliceBatches k rows, b ≠ [] := by
    intro n
    induction n using Nat.strong_induction_on with
    | _ n ih =>
      intro rows hn
      rw [sliceBatches_eq]
      by_cases he : rows.isEmpty
      · simp [he]
      · rw [if_neg (by simp [he, hk])]
        intro b hb
        have h0 : 0 < rows.length := List.length_pos.mpr (by simpa [List.isEmpty_iff] using he)
        rcases List.mem_cons.mp hb with h | h
        · subst h
          simp only [ne_eq, List.take_eq_nil_iff]
          push_neg
          exact ⟨hk, by simpa [List.isEmpty_iff] using he⟩
        · have hlt : (rows.drop k).length < n := by
            simp only [List.length_drop]
            omega
          exact ih _ hlt _ rfl b h
  exact H rows.length rows rfl

lemma sliceBatches_mem_subset {k : Nat} (hk : k ≠ 0) (rows : List Row) :
    ∀ b ∈ sliceBatches k rows, ∀ r ∈ b, r ∈ rows := by
  intro b hb r hr
  rw [← sliceBatches_flatten hk rows]
  exact List.mem_flatten.mpr ⟨b, hb, hr⟩

lemma sliceBatches_sum_lengths {k : Nat} (hk : k ≠ 0) (rows : List Row) :
    ((sliceBatches k rows).map List.length).sum = rows.length := by
  have h := congrArg List.length (sliceBatches_flatten hk rows)
  simpa [List.length_flatten] using h

/-- Fuel-driven version of the slice-length computation. -/
def chunkLensAux : Nat → Nat → Nat → List Nat
  | 0, _, _ => []
  | fuel + 1, k, n => if n = 0 ∨ k = 0 then [] else min k n :: chunkLensAux fuel k (n - k)

/-- Lengths of the consecutive slices of a list of `n` rows. -/
def chunkLens (k n : Nat) : List Nat := chunkLensAux n k n

lemma chunkLensAux_congr :
    ∀ (n fuel fuel' : Nat) (k : Nat), n ≤ fuel → n ≤ fuel' →
    chunkLensAux fuel k n = chunkLensAux fuel' k n := by
  intro n
  induction n using Nat.strong_induction_on with
  | _ n ih =>
    intro fuel fuel' k hf hf'
    by_cases h0 : n = 0
    · subst h0
      cases fuel with
      | zero =>
        cases fuel' with
        | zero => rfl
        | succ f' => simp [chunkLensAux]
      | succ f =>
        cases fuel' with
        | zero => simp [chunkLensAux]
        | succ f' => simp [chunkLensAux]
    · cases fuel with
      | zero => omega
      | succ f =>
        cases fuel' with
        | zero => omega
        | succ f' =>
          by_cases hk : k = 0
          · simp [chunkLensAux, hk]
          · simp only [chunkLensAux]
            rw [if_neg (by omega), if_neg (by omega)]
            congr 1
            exact ih (n - k) (by omega) f f' k (by omega) (by omega)

lemma chunkLens_eq (k n : Nat) :
    chunkLens k n = if n = 0 ∨ k = 0 then [] else min k n :: chunkLens k (n - k) := by
  by_cases h0 : n = 0
  · simp [chunkLens, h0, chunkLensAux]
  · by_cases hk : k = 0
    · cases n with
      | zero => omega
      | succ m => simp [chunkLens, chunkLensAux, hk]
    · cases n with
      | zero => omega
      | succ m =>
        unfold chunkLens
        simp only [chunkLensAux]
        rw [if_neg (by omega), if_neg (by omega)]
        congr 1
        exact chunkLensAux_congr (m + 1 - k) _ _ k (by omega) (by omega)

lemma sliceBatches_map_length {k : Nat} (hk : k ≠ 0) (rows : List Row) :
    (sliceBatches k rows).map List.length = chunkLens k rows.length := by
  have H : ∀ (n : Nat) (rows : List Row), rows.length = n →
      (sliceBatches k rows).map List.length = chunkLens k rows.length := by
    intro n
    induction n using Nat.strong_induction_on with
    | _ n ih =>
      intro rows hn
      rw [sliceBatches_eq, chunkLens_eq]
      by_cases he : rows.isEmpty
      · simp [he, List.isEmpty_iff.mp he]
      · have h0 : 0 < rows.length := List.length_pos.mpr (by simpa [List.isEmpty_iff] using he)
        rw [if_neg (by simp [he, hk]), if_neg (by omega)]
        have hlt : (rows.drop k).length < n := by
          simp only [List.length_drop]
          omega
        rw [List.map_cons, ih _ hlt _ rfl]
        simp [List.length_drop, Nat.min_comm]
  exact H rows.length rows rfl

lemma chunkLens_length {k : Nat} (hk : k ≠ 0) (n : Nat) :
    (chunkLens k n).length = (n + k - 1) / k := by
  induction n using Nat.strong_induction_on with
  | _ n ih =>
    rw [chunkLens_eq]
    by_cases h0 : n = 0
    · rw [if_pos (Or.inl h0)]
      subst h0
      simp
      exact (Nat.div_eq_of_lt (by omega)).symm
    · rw [if_neg (by omega)]
      simp only [List.length_cons]
      rw [ih (n - k) (by omega)]
      have hnk : n + k - 1 = (n - 1) + k := by omega
      rw [hnk, Nat.add_div_right _ (by omega)]
      by_cases hle : n ≤ k
      · have hz : n - k = 0 := by omega
        rw [hz]
        have h1 : (0 + k - 1) / k = 0 := Nat.div_eq_of_lt (by omega)
        rw [h1]
        have h2 : (n - 1) / k = 0 := Nat.div_eq_of_lt (by omega)
        omega
      · have hnk2 : n - k + k - 1 = (n - 1 - k) + k := by omega
        rw [hnk2, Nat.add_div_right _ (by omega)]
        have h3 : (n - 1 - k) / k + 1 = (n - 1) / k := by
          have h1 : n - 1 = (n - 1 - k) + k := by omega
          conv_rhs => rw [h1]
          rw [Nat.add_div_right _ (by omega)]
        omega

lemma nodeWriteBatches_spec (bs : List (List Row)) :
    ∀ (failAt : Option Nat) (label : String) (s : WState),
    (eventsOf (nodeWriteBatches failAt label bs s).1 = []
     ∧ (∀ o ∈ opsOf (nodeWriteBatches failAt label bs s).1,
         ∃ b ∈ bs, o = Op.writeNodes label b)
     ∧ (nodeWriteBatches failAt label bs s).2.1.processed = s.processed
     ∧ ((nodeWriteBatches failAt label bs s).2.2 = true →
         (nodeWriteBatches failAt label bs s).2.1.g.nodes
           = s.g.nodes ++ bs.flatten.map (fun r => ⟨label, r⟩)
         ∧ (nodeWriteBatches failAt label bs s).2.1.g.rels = s.g.rels
         ∧ (nodeWriteBatches failAt label bs s).2.1.total = s.total + bs.flatten.length)) := by
  induction bs with
  | nil =>
    intro failAt label s
    simp [nodeWriteBatches]
  | cons b rest ih =>
    intro failAt label s
    simp only [nodeWriteBatches]
    by_cases hf : writeFails failAt s.widx
    · simp [hf]
    · have hrec := ih failAt label ⟨s.total + b.length, s.processed, s.widx + 1,
        ⟨s.g.nodes ++ b.map (fun r => ⟨label, r⟩), s.g.rels⟩⟩
      simp only [hf, Bool.false_eq_true, if_false]
      refine ⟨by simpa using hrec.1, ?_, by simpa using hrec.2.2.1, ?_⟩
      · intro o ho
        simp only [opsOf_cons_op] at ho
        rcases List.mem_cons.mp ho with h | h
        · exact ⟨b, List.mem_cons_self _ _, h⟩
        · obtain ⟨b', hb', ho'⟩ := hrec.2.1 o h
          exact ⟨b', List.mem_cons_of_mem _ hb', ho'⟩
      · intro hok
        obtain ⟨hn, hr, ht⟩ := hrec.2.2.2 (by simpa using hok)
        refine ⟨?_, by simpa using hr, ?_⟩
        · simp only [hn]
          simp [List.flatten_cons]
        · simp only [ht]
          simp [List.flatten_cons]
          omega

lemma nodeWriteGroups_spec (gs : List (String × List Row)) :
    ∀ (failAt : Option Nat) (s : WState),
    (eventsOf (nodeWriteGroups failAt gs s).1 = []
     ∧ (∀ o ∈ opsOf (nodeWriteGroups failAt gs s).1,
         ∃ g ∈ gs, ∃ b ∈ sliceBatches nodeBatchSize g.2, o = Op.writeNodes g.1 b)
     ∧ (nodeWriteGroups failAt gs s).2.1.processed = s.processed
     ∧ ((nodeWriteGroups failAt gs s).2.2 = true →
         (nodeWriteGroups failAt gs s).2.1.g.nodes
           = s.g.nodes ++ (gs.map groupNodes).flatten
         ∧ (nodeWriteGroups failAt gs s).2.1.g.rels = s.g.rels
         ∧ (nodeWriteGroups failAt gs s).2.1.total = s.total + groupsSize gs)) := by
  induction gs with
  | nil =>
    intro failAt s
    simp [nodeWriteGroups, groupsSize]
  | cons g rest ih =>
    obtain ⟨label, rows⟩ := g
    intro failAt s
    simp only [nodeWriteGroups]
    have hbs := nodeWriteBatches_spec (sliceBatches nodeBatchSize rows) failAt label s
    by_cases hok : (nodeWriteBatches failAt label (sliceBatches nodeBatchSize rows) s).2.2 = true
    · have hrec := ih failAt (nodeWriteBatches failAt label (sliceBatches nodeBatchSize rows) s).2.1
      obtain ⟨hn, hr, ht⟩ := hbs.2.2.2 hok
      simp only [hok, if_true]
      refine ⟨by simp [hbs.1, hrec.1], ?_, by simp [hbs.2.2.1, hrec.2.2.1], ?_⟩
      · intro o ho
        simp only [opsOf_append] at ho
        rcases List.mem_append.mp ho with h | h
        · obtain ⟨b, hb, ho'⟩ := hbs.2.1 o h
          exact ⟨(label, rows), List.mem_cons_self _ _, b, hb, ho'⟩
        · obtain ⟨g', hg', b, hb, ho'⟩ := hrec.2.1 o h
          exact ⟨g', List.mem_cons_of_mem _ hg', b, hb, ho'⟩
      · intro hok2
        obtain ⟨hn2, hr2, ht2⟩ := hrec.2.2.2 (by simpa using hok2)
        have hflat : (sliceBatches nodeBatchSize rows).flatten = rows :=
          sliceBatches_flatten (by simp [nodeBatchSize]) rows
        refine ⟨?_, by simp [hr2, hr], ?_⟩
        · rw [hn2, hn, hflat]
          simp [groupNodes, List.flatten_cons, List.append_assoc]
        · rw [ht2, ht, hflat]
          simp [groupsSize, List.flatten_cons]
          omega
    · simp only [hok, Bool.false_eq_true, if_false]
      refine ⟨hbs.1, ?_, hbs.2.2.1, ?_⟩
      · intro o ho
        obtain ⟨b, hb, ho'⟩ := hbs.2.1 o ho
        exact ⟨(label, rows), List.mem_cons_self _ _, b, hb, ho'⟩
      · intro hok2
        exact hok2.elim

lemma nodeWriteFiles_spec (pfs : List ParsedCSVData) :
    ∀ (failAt : Option Nat) (s : WState),
    (eventsOf (nodeWriteFiles failAt pfs s).1 = []
     ∧ (∀ o ∈ opsOf (nodeWriteFiles failAt pfs s).1,
         ∃ pf ∈ pfs, ∃ g ∈ groupRows "LABEL" stripLabel pf.rows,
           ∃ b ∈ sliceBatches nodeBatchSize g.2, o = Op.writeNodes g.1 b)
     ∧ ((nodeWriteFiles failAt pfs s).2.2 = true →
         (nodeWriteFiles failAt pfs s).2.1.g.nodes = s.g.nodes ++ filesNodes pfs
         ∧ (nodeWriteFiles failAt pfs s).2.1.g.rels = s.g.rels
         ∧ (nodeWriteFiles failAt pfs s).2.1.total
             = s.total + (pfs.map (fun pf => groupedCount "LABEL" pf.rows)).sum)) := by
  induction pfs with
  | nil =>
    intro failAt s
    simp [nodeWriteFiles, filesNodes]
  | cons pf rest ih =>
    intro failAt s
    simp only [nodeWriteFiles]
    have hgs := nodeWriteGroups_spec (groupRows "LABEL" stripLabel pf.rows) failAt s
    by_cases hok : (nodeWriteGroups failAt (groupRows "LABEL" stripLabel pf.rows) s).2.2 = true
    · have hrec := ih failAt (nodeWriteGroups failAt (groupRows "LABEL" stripLabel pf.rows) s).2.1
      obtain ⟨hn, hr, ht⟩ := hgs.2.2.2 hok
      simp only [hok, if_true]
      refine ⟨by simp [hgs.1, hrec.1], ?_, ?_⟩
      · intro o ho
        simp only [opsOf_append] at ho
        rcases List.mem_append.mp ho with h | h
        · obtain ⟨g, hg, b, hb, ho'⟩ := hgs.2.1 o h
          exact ⟨pf, List.mem_cons_self _ _, g, hg, b, hb, ho'⟩
        · obtain ⟨pf', hpf', g, hg, b, hb, ho'⟩ := hrec.2.1 o h
          exact ⟨pf', List.mem_cons_of_mem _ hpf', g, hg, b, hb, ho'⟩
      · intro hok2
        obtain ⟨hn2, hr2, ht2⟩ := hrec.2.2 (by simpa using hok2)
        refine ⟨?_, by simp [hr2, hr], ?_⟩
        · rw [hn2, hn]
          simp [filesNodes, fileNodes, List.flatten_cons, List.append_assoc]
        · rw [ht2, ht]
          rw [groupsSize_groupRows]
          simp
          omega
    · simp only [hok, Bool.false_eq_true, if_false]
      refine ⟨hgs.1, ?_, ?_⟩
      · intro o ho
        obtain ⟨g, hg, b, hb, ho'⟩ := hgs.2.1 o ho
        exact ⟨pf, List.mem_cons_self _ _, g, hg, b, hb, ho'⟩
      · intro hok2
        exact hok2.elim

lemma progressPercents_of_no_events {l : List Item} (h : eventsOf l = []) :
    progressPercents l = [] := by
  induction l with
  | nil => rfl
  | cons it rest ih =>
    cases it with
    | ev e => simp at h
    | op o => simpa using ih (by simpa using h)

lemma terminalCount_of_no_events {l : List Item} (h : eventsOf l = []) :
    terminalCount l = 0 := by
  simp [terminalCount, h]

lemma successEvents_of_no_events {l : List Item} (h : eventsOf l = []) :
    successEvents l = [] := by
  induction l with
  | nil => rfl
  | cons it rest ih =>
    cases it with
    | ev e => simp at h
    | op o => simpa using ih (by simpa using h)

/-- The writing-phase percent of the relationship route after `p` of `T`
rows: `Math.round(30 + (p / T) * 65)`. -/
def relPercent (p T : Nat) : ℚ := jsRound (30 + ((p : ℚ) / (T : ℚ)) * 65)

lemma jsRound_mono {q q' : ℚ} (h : q ≤ q') : jsRound q ≤ jsRound q' := by
  unfold jsRound
  exact_mod_cast Int.floor_le_floor (by linarith)

lemma jsRound_den {q : ℚ} : (jsRound q).den = 1 := by
  unfold jsRound
  exact Rat.den_intCast _

lemma relPercent_mono {p p' : Nat} (T : Nat) (h : p ≤ p') :
    relPercent p T ≤ relPercent p' T := by
  unfold relPercent
  apply jsRound_mono
  rcases Nat.eq_zero_or_pos T with h0 | h0
  · subst h0
    norm_num
  · have hT : (0 : ℚ) < T := by exact_mod_cast h0
    have : (p : ℚ) / (T : ℚ) ≤ (p' : ℚ) / (T : ℚ) := by gcongr
    linarith

lemma relPercent_lb (p T : Nat) : 30 ≤ relPercent p T := by
  unfold relPercent jsRound
  have h : (0 : ℚ) ≤ ((p : ℚ) / (T : ℚ)) * 65 := by positivity
  have h2 : (30 : ℤ) ≤ ⌊30 + ((p : ℚ) / (T : ℚ)) * 65 + 1/2⌋ := by
    apply Int.le_floor.mpr
    push_cast
    linarith
  exact_mod_cast h2

lemma relPercent_ub {p T : Nat} (h : p ≤ T) : relPercent p T ≤ 95 := by
  unfold relPercent jsRound
  have hx : ((p : ℚ) / (T : ℚ)) ≤ 1 := by
    rcases Nat.eq_zero_or_pos T with h0 | h0
    · subst h0
      norm_num
    · have hT : (0 : ℚ) < T := by exact_mod_cast h0
      rw [div_le_one hT]
      exact_mod_cast h
  have h1 : (⌊30 + ((p : ℚ) / (T : ℚ)) * 65 + 1/2⌋ : ℤ) ≤ ⌊(191/2 : ℚ)⌋ :=
    Int.floor_le_floor (by linarith)
  have h2 : (⌊(191/2 : ℚ)⌋ : ℤ) = 95 := by
    rw [Int.floor_eq_iff]
    norm_num
  rw [h2] at h1
  exact_mod_cast h1

lemma relWriteBatches_spec (bs : List (List Row)) :
    ∀ (failAt : Option Nat) (T : Nat) (rt : String) (s : WState),
    ((∀ q ∈ progressPercents (relWriteBatches failAt T rt bs s).1,
        ∃ p, s.processed ≤ p ∧ p ≤ (relWriteBatches failAt T rt bs s).2.1.processed
          ∧ q = relPercent p T)
     ∧ (progressPercents (relWriteBatches failAt T rt bs s).1).Chain' (· ≤ ·)
     ∧ terminalCount (relWriteBatches failAt T rt bs s).1 = 0
     ∧ successEvents (relWriteBatches failAt T rt bs s).1 = []
     ∧ s.processed ≤ (relWriteBatches failAt T rt bs s).2.1.processed
     ∧ (relWriteBatches failAt T rt bs s).2.1.processed
         ≤ s.processed + (bs.map List.length).sum
     ∧ (relWriteBatches failAt T rt bs s).2.1.g.nodes = s.g.nodes
     ∧ (∀ o ∈ opsOf (relWriteBatches failAt T rt bs s).1,
         ∃ b ∈ bs, o = Op.writeRels rt (relKeys b) b)
     ∧ ((relWriteBatches failAt T rt bs s).2.2 = true →
         (relWriteBatches failAt T rt bs s).2.1.total
           = s.total + (bs.map (fun b => (b.map (fun r => createdForRow s.g.nodes r)).sum)).sum
         ∧ (relWriteBatches failAt T rt bs s).2.1.processed
             = s.processed + (bs.map List.length).sum)) := by
  induction bs with
  | nil =>
    intro failAt T rt s
    simp [relWriteBatches]
  | cons b rest ih =>
    intro failAt T rt s
    simp only [relWriteBatches]
    by_cases hf : writeFails failAt s.widx
    · simp [hf]
    · have hrec := ih failAt T rt ⟨s.total + (b.map (fun r => createdForRow s.g.nodes r)).sum,
        s.processed + b.length, s.widx + 1,
        ⟨s.g.nodes, s.g.rels ++ (b.map (fun r =>
          List.replicate (createdForRow s.g.nodes r)
            (⟨rt, relProps ((rowKeys (b.headD [])).filter
              (fun k => !(REQUIRED_COLUMNS.contains k))) r⟩ : GRel))).flatten⟩⟩
      simp only [hf, Bool.false_eq_true, if_false]
      obtain ⟨hA, hB, hC, hD, hE, hF, hG, hH, hI⟩ := hrec
      constructor
      · -- classification of the percents
        intro q hq
        simp only [progressPercents_cons_op, progressPercents_cons_progress] at hq
        rcases List.mem_cons.mp hq with h | h
        · exact ⟨s.processed + b.length, by omega, by simpa using hE, h⟩
        · obtain ⟨p, hp1, hp2, hp3⟩ := hA q h
          simp only at hp1 hp2
          exact ⟨p, by omega, by simpa using hp2, hp3⟩
      constructor
      · -- chain
        simp only [progressPercents_cons_op, progressPercents_cons_progress]
        rw [List.chain'_cons']
        refine ⟨?_, hB⟩
        intro y hy
        have hym : y ∈ progressPercents (relWriteBatches failAt T rt rest
            ⟨s.total + (b.map (fun r => createdForRow s.g.nodes r)).sum,
             s.processed + b.length, s.widx + 1,
             ⟨s.g.nodes, s.g.rels ++ (b.map (fun r =>
               List.replicate (createdForRow s.g.nodes r)
                 (⟨rt, relProps ((rowKeys (b.headD [])).filter
                   (fun k => !(REQUIRED_COLUMNS.contains k))) r⟩ : GRel))).flatten⟩⟩).1 := by
          rw [List.eq_cons_of_mem_head? hy]
          exact List.mem_cons_self _ _
        obtain ⟨p, hp1, hp2, hp3⟩ := hA y hym
        simp only at hp1
        rw [hp3]
        exact relPercent_mono T hp1
      refine ⟨by simpa using hC, by simpa using hD, by simp at hE ⊢; omega,
        by simp at hF ⊢; omega, by simpa using hG, ?_, ?_⟩
      · intro o ho
        simp only [opsOf_cons_op, opsOf_cons_ev] at ho
        rcases List.mem_cons.mp ho with h | h
        · exact ⟨b, List.mem_cons_self _ _, by simpa [relKeys] using h⟩
        · obtain ⟨b', hb', ho'⟩ := hH o h
          exact ⟨b', List.mem_cons_of_mem _ hb', ho'⟩
      · intro hok
        obtain ⟨ht, hp⟩ := hI (by simpa using hok)
        constructor
        · rw [ht]
          simp only [hG]
          simp
          omega
        · rw [hp]
          simp
          omega

lemma sum_map_flatten (f : Row → Nat) (bs : List (List Row)) :
    (bs.map (fun b => (b.map f).sum)).sum = (bs.flatten.map f).sum := by
  induction bs with
  | nil => simp
  | cons b rest ih => simp [ih]

lemma relWriteGroups_spec (gs : List (String × List Row)) :
    ∀ (failAt : Option Nat) (T : Nat) (s : WState),
    ((∀ q ∈ progressPercents (relWriteGroups failAt T gs s).1,
        ∃ p, s.processed ≤ p ∧ p ≤ (relWriteGroups failAt T gs s).2.1.processed
          ∧ q = relPercent p T)
     ∧ (progressPercents (relWriteGroups failAt T gs s).1).Chain' (· ≤ ·)
     ∧ terminalCount (relWriteGroups failAt T gs s).1 = 0
     ∧ successEvents (relWriteGroups failAt T gs s).1 = []
     ∧ s.processed ≤ (relWriteGroups failAt T gs s).2.1.processed
     ∧ (relWriteGroups failAt T gs s).2.1.processed ≤ s.processed + groupsSize gs
     ∧ (relWriteGroups failAt T gs s).2.1.g.nodes = s.g.nodes
     ∧ (∀ o ∈ opsOf (relWriteGroups failAt T gs s).1,
         ∃ g ∈ gs, ∃ b ∈ sliceBatches relBatchSize g.2, o = Op.writeRels g.1 (relKeys b) b)
     ∧ ((relWriteGroups failAt T gs s).2.2 = true →
         (relWriteGroups failAt T gs s).2.1.total
           = s.total + (gs.map (fun g => (g.2.map (fun r => createdForRow s.g.nodes r)).sum)).sum
         ∧ (relWriteGroups failAt T gs s).2.1.processed = s.processed + groupsSize gs)) := by
  induction gs with
  | nil =>
    intro failAt T s
    simp [relWriteGroups, groupsSize]
  | cons g rest ih =>
    obtain ⟨rt, rows⟩ := g
    intro failAt T s
    simp only [relWriteGroups]
    have h5 : (relBatchSize : Nat) ≠ 0 := by simp [relBatchSize]
    have hbs := relWriteBatches_spec (sliceBatches relBatchSize rows) failAt T rt s
    obtain ⟨bA, bB, bC1, bC2, bD1, bD2, bE, bF, bG⟩ := hbs
    have hlens : ((sliceBatches relBatchSize rows).map List.length).sum = rows.length :=
      sliceBatches_sum_lengths h5 rows
    by_cases hok : (relWriteBatches failAt T rt (sliceBatches relBatchSize rows) s).2.2 = true
    · have hrec := ih failAt T (relWriteBatches failAt T rt (sliceBatches relBatchSize rows) s).2.1
      obtain ⟨rA, rB, rC1, rC2, rD1, rD2, rE, rF, rG⟩ := hrec
      simp only [hok, if_true]
      obtain ⟨bT, bP⟩ := bG hok
      constructor
      · intro q hq
        simp only [progressPercents_append] at hq
        rcases List.mem_append.mp hq with h | h
        · obtain ⟨p, hp1, hp2, hp3⟩ := bA q h
          exact ⟨p, hp1, le_trans hp2 rD1, hp3⟩
        · obtain ⟨p, hp1, hp2, hp3⟩ := rA q h
          exact ⟨p, le_trans bD1 hp1, hp2, hp3⟩
      constructor
      · simp only [progressPercents_append]
        apply chain_le_append
          (relPercent (relWriteBatches failAt T rt (sliceBatches relBatchSize rows) s).2.1.processed T)
          bB rB
        · intro a ha
          obtain ⟨p, hp1, hp2, hp3⟩ := bA a ha
          rw [hp3]
          exact relPercent_mono T hp2
        · intro b hb
          obtain ⟨p, hp1, hp2, hp3⟩ := rA b hb
          rw [hp3]
          exact relPercent_mono T hp1
      refine ⟨by simp [bC1, rC1], by simp [bC2, rC2], le_trans bD1 rD1, ?_, by rw [rE, bE], ?_, ?_⟩
      · have : groupsSize ((rt, rows) :: rest) = rows.length + groupsSize rest := by
          simp [groupsSize]
        rw [this]
        rw [hlens] at bD2
        omega
      · intro o ho
        simp only [opsOf_append] at ho
        rcases List.mem_append.mp ho with h | h
        · obtain ⟨b, hb, ho'⟩ := bF o h
          exact ⟨(rt, rows), List.mem_cons_self _ _, b, hb, ho'⟩
        · obtain ⟨g', hg', b, hb, ho'⟩ := rF o h
          exact ⟨g', List.mem_cons_of_mem _ hg', b, hb, ho'⟩
      · intro hok2
        obtain ⟨rT, rP⟩ := rG (by simpa using hok2)
        constructor
        · rw [rT, bT]
          rw [bE]
          have hflat := sum_map_flatten (fun r => createdForRow s.g.nodes r)
            (sliceBatches relBatchSize rows)
          rw [sliceBatches_flatten h5 rows] at hflat
          simp only [List.map_cons, List.sum_cons]
          omega
        · rw [rP, bP, hlens]
          have : groupsSize ((rt, rows) :: rest) = rows.length + groupsSize rest := by
            simp [groupsSize]
          omega
    · simp only [hok, Bool.false_eq_true, if_false]
      refine ⟨?_, bB, bC1, bC2, bD1, ?_, bE, ?_, fun h => h.elim⟩
      · intro q hq
        exact bA q hq
      · have : groupsSize ((rt, rows) :: rest) = rows.length + groupsSize rest := by
          simp [groupsSize]
        rw [hlens] at bD2
        omega
      · intro o ho
        obtain ⟨b, hb, ho'⟩ := bF o ho
        exact ⟨(rt, rows), List.mem_cons_self _ _, b, hb, ho'⟩

/-- Relationship count each run adds on success: per file, per type group,
per row, the product of the two endpoint match counts. -/
def relCreatedCount (nodes : List GNode) (pfs : List ParsedCSVData) : Nat :=
  (pfs.map (fun pf =>
    ((groupRows "TYPE" id pf.rows).map
      (fun g => (g.2.map (fun r => createdForRow nodes r)).sum)).sum)).sum

lemma relWriteFiles_spec (pfs : List ParsedCSVData) :
    ∀ (failAt : Option Nat) (T : Nat) (s : WState),
    ((∀ q ∈ progressPercents (relWriteFiles failAt T pfs s).1,
        ∃ p, s.processed ≤ p ∧ p ≤ (relWriteFiles failAt T pfs s).2.1.processed
          ∧ q = relPercent p T)
     ∧ (progressPercents (relWriteFiles failAt T pfs s).1).Chain' (· ≤ ·)
     ∧ terminalCount (relWriteFiles failAt T pfs s).1 = 0
     ∧ successEvents (relWriteFiles failAt T pfs s).1 = []
     ∧ s.processed ≤ (relWriteFiles failAt T pfs s).2.1.processed
     ∧ (relWriteFiles failAt T pfs s).2.1.processed
         ≤ s.processed + (pfs.map (fun pf => groupedCount "TYPE" pf.rows)).sum
     ∧ (relWriteFiles failAt T pfs s).2.1.g.nodes = s.g.nodes
     ∧ (∀ o ∈ opsOf (relWriteFiles failAt T pfs s).1,
         ∃ pf ∈ pfs, ∃ g ∈ groupRows "TYPE" id pf.rows,
           ∃ b ∈ sliceBatches relBatchSize g.2, o = Op.writeRels g.1 (relKeys b) b)
     ∧ ((relWriteFiles failAt T pfs s).2.2 = true →
         (relWriteFiles failAt T pfs s).2.1.total = s.total + relCreatedCount s.g.nodes pfs
         ∧ (relWriteFiles failAt T pfs s).2.1.processed
             = s.processed + (pfs.map (fun pf => groupedCount "TYPE" pf.rows)).sum)) := by
  induction pfs with
  | nil =>
    intro failAt T s
    simp [relWriteFiles, relCreatedCount]
  | cons pf rest ih =>
    intro failAt T s
    simp only [relWriteFiles]
    have hgs := relWriteGroups_spec (groupRows "TYPE" id pf.rows) failAt T s
    obtain ⟨gA, gB, gC1, gC2, gD1, gD2, gE, gF, gG⟩ := hgs
    have hsize : groupsSize (groupRows "TYPE" id pf.rows) = groupedCount "TYPE" pf.rows :=
      groupsSize_groupRows "TYPE" id pf.rows
    by_cases hok : (relWriteGroups failAt T (groupRows "TYPE" id pf.rows) s).2.2 = true
    · have hrec := ih failAt T (relWriteGroups failAt T (groupRows "TYPE" id pf.rows) s).2.1
      obtain ⟨rA, rB, rC1, rC2, rD1, rD2, rE, rF, rG⟩ := hrec
      simp only [hok, if_true]
      obtain ⟨gT, gP⟩ := gG hok
      constructor
      · intro q hq
        simp only [progressPercents_append] at hq
        rcases List.mem_append.mp hq with h | h
        · obtain ⟨p, hp1, hp2, hp3⟩ := gA q h
          exact ⟨p, hp1, le_trans hp2 rD1, hp3⟩
        · obtain ⟨p, hp1, hp2, hp3⟩ := rA q h
          exact ⟨p, le_trans gD1 hp1, hp2, hp3⟩
      constructor
      · simp only [progressPercents_append]
        apply chain_le_append
          (relPercent (relWriteGroups failAt T (groupRows "TYPE" id pf.rows) s).2.1.processed T)
          gB rB
        · intro a ha
          obtain ⟨p, hp1, hp2, hp3⟩ := gA a ha
          rw [hp3]
          exact relPercent_mono T hp2
        · intro b hb
          obtain ⟨p, hp1, hp2, hp3⟩ := rA b hb
          rw [hp3]
          exact relPercent_mono T hp1
      refine ⟨by simp [gC1, rC1], by simp [gC2, rC2], le_trans gD1 rD1, ?_, by rw [rE, gE], ?_, ?_⟩
      · rw [hsize] at gD2
        simp only [List.map_cons, List.sum_cons]
        omega
      · intro o ho
        simp only [opsOf_append] at ho
        rcases List.mem_append.mp ho with h | h
        · obtain ⟨g, hg, b, hb, ho'⟩ := gF o h
          exact ⟨pf, List.mem_cons_self _ _, g, hg, b, hb, ho'⟩
        · obtain ⟨pf', hpf', g, hg, b, hb, ho'⟩ := rF o h
          exact ⟨pf', List.mem_cons_of_mem _ hpf', g, hg, b, hb, ho'⟩
      · intro hok2
        obtain ⟨rT, rP⟩ := rG (by simpa using hok2)
        constructor
        · rw [rT, gT, gE]
          simp only [relCreatedCount, List.map_cons, List.sum_cons]
          omega
        · rw [rP, gP, hsize]
          simp only [List.map_cons, List.sum_cons]
          omega
    · simp only [hok, Bool.false_eq_true, if_false]
      refine ⟨gA, gB, gC1, gC2, gD1, ?_, gE, ?_, fun h => h.elim⟩
      · rw [hsize] at gD2
        simp only [List.map_cons, List.sum_cons]
        omega
      · intro o ho
        obtain ⟨g, hg, b, hb, ho'⟩ := gF o ho
        exact ⟨pf, List.mem_cons_self _ _, g, hg, b, hb, ho'⟩

/-- Batch-write operations (one `executeWrite` each). -/
def isWriteOp : Op → Bool
  | .writeNodes _ _ => true
  | .writeRels _ _ _ => true
  | _ => false

/-- State machine checking that no two batch writes happen without a
progress emission in between: carries whether a write is still waiting
for its progress event; `none` means the property is violated. -/
def wpState : Bool → List Item → Option Bool
  | pending, [] => some pending
  | pending, it :: rest =>
    match it with
    | .op o =>
        if isWriteOp o then
          (if pending then none else wpState true rest)
        else wpState pending rest
    | .ev (.progress _ _) => wpState false rest
    | .ev _ => wpState pending rest

/-- "A progress event is emitted after every batch (before the next batch
write starts)": the formalisation of the per-batch progress reporting the
spec describes for the writing phase. -/
def writingProgressOk (l : List Item) : Bool := (wpState false l).isSome

lemma wpState_append (A B : List Item) :
    ∀ b, wpState b (A ++ B) = (wpState b A).bind (fun b' => wpState b' B) := by
  induction A with
  | nil =>
    intro b
    simp [wpState]
  | cons it rest ih =>
    intro b
    cases it with
    | op o =>
      by_cases hw : isWriteOp o
      · by_cases hp : b
        · subst hp
          simp [wpState, hw]
        · simp only [List.cons_append, wpState, hw, if_true]
          rw [if_neg hp, if_neg hp]
          exact ih true
      · simp only [List.cons_append, wpState]
        rw [if_neg hw, if_neg hw]
        exact ih b
    | ev e =>
      cases e with
      | progress p m =>
        simp only [List.cons_append, wpState]
        exact ih false
      | error m d =>
        simp only [List.cons_append, wpState]
        exact ih b
      | success a c m =>
        simp only [List.cons_append, wpState]
        exact ih b

lemma wpState_of_no_writes {l : List Item} (h : ∀ o ∈ opsOf l, isWriteOp o = false) :
    wpState false l = some false := by
  induction l with
  | nil => rfl
  | cons it rest ih =>
    cases it with
    | op o =>
      have ho : isWriteOp o = false := h o (by simp)
      simp only [wpState]
      rw [if_neg (by simp [ho])]
      exact ih (fun o' ho' => h o' (by simp [ho']))
    | ev e =>
      cases e with
      | progress p m =>
        simpa [wpState] using ih (fun o' ho' => h o' (by simpa using ho'))
      | error m d =>
        simpa [wpState] using ih (fun o' ho' => h o' (by simpa using ho'))
      | success a c m =>
        simpa [wpState] using ih (fun o' ho' => h o' (by simpa using ho'))

lemma wpState_relWriteBatches (bs : List (List Row)) :
    ∀ (failAt : Option Nat) (T : Nat) (rt : String) (s : WState),
    wpState false (relWriteBatches failAt T rt bs s).1 = some false := by
  induction bs with
  | nil =>
    intro failAt T rt s
    rfl
  | cons b rest ih =>
    intro failAt T rt s
    simp only [relWriteBatches]
    by_cases hf : writeFails failAt s.widx
    · simp [hf, wpState]
    · simp only [hf, Bool.false_eq_true, if_false]
      simp only [wpState, isWriteOp, if_true]
      rw [if_neg (by simp)]
      exact ih failAt T rt _

lemma wpState_relWriteGroups (gs : List (String × List Row)) :
    ∀ (failAt : Option Nat) (T : Nat) (s : WState),
    wpState false (relWriteGroups failAt T gs s).1 = some false := by
  induction gs with
  | nil =>
    intro failAt T s
    rfl
  | cons g rest ih =>
    obtain ⟨rt, rows⟩ := g
    intro failAt T s
    simp only [relWriteGroups]
    by_cases hok : (relWriteBatches failAt T rt (sliceBatches relBatchSize rows) s).2.2 = true
    · simp only [hok, if_true]
      rw [wpState_append, wpState_relWriteBatches]
      simpa using ih failAt T _
    · simp only [hok, Bool.false_eq_true, if_false]
      exact wpState_relWriteBatches _ failAt T rt s

lemma wpState_relWriteFiles (pfs : List ParsedCSVData) :
    ∀ (failAt : Option Nat) (T : Nat) (s : WState),
    wpState false (relWriteFiles failAt T pfs s).1 = some false := by
  induction pfs with
  | nil =>
    intro failAt T s
    rfl
  | cons pf rest ih =>
    intro failAt T s
    simp only [relWriteFiles]
    by_cases hok : (relWriteGroups failAt T (groupRows "TYPE" id pf.rows) s).2.2 = true
    · simp only [hok, if_true]
      rw [wpState_append, wpState_relWriteGroups]
      simpa using ih failAt T _
    · simp only [hok, Bool.false_eq_true, if_false]
      exact wpState_relWriteGroups _ failAt T s

lemma nodeParseLoop_percents_shape (fs : List InFile) :
    ∀ (n i : Nat) (acc : List ParsedCSVData) (total : Nat), i + fs.length ≤ n →
    ∀ q ∈ progressPercents (nodeParseLoop n i fs acc total).1,
      ∃ j, j < n ∧ q = parsePercent j n := by
  induction fs with
  | nil =>
    intro n i acc total hn
    simp [nodeParseLoop]
  | cons f rest ih =>
    intro n i acc total hn
    have hin : i < n := by simp at hn; omega
    simp only [nodeParseLoop]
    cases hpr : f.parseResult with
    | error msg =>
      intro q hq
      simp at hq
      exact ⟨i, hin, hq⟩
    | ok hr =>
      obtain ⟨headers, rows⟩ := hr
      by_cases hemp : headers.isEmpty
      · intro q hq
        simp [hemp] at hq
        exact ⟨i, hin, hq⟩
      · by_cases hlab : "LABEL" ∈ headers
        · simp only [hemp, hlab, if_true, if_false, Bool.false_eq_true]
          intro q hq
          rw [progressPercents_cons_progress] at hq
          rcases List.mem_cons.mp hq with h | h
          · exact ⟨i, hin, h⟩
          · exact ih n (i + 1) _ _ (by simp at hn ⊢; omega) q h
        · intro q hq
          simp [hemp, hlab] at hq
          exact ⟨i, hin, hq⟩

lemma relParseLoop_percents_shape (fs : List InFile) :
    ∀ (n i : Nat) (acc : List ParsedCSVData) (total : Nat), i + fs.length ≤ n →
    ∀ q ∈ progressPercents (relParseLoop n i fs acc total).1,
      ∃ j, j < n ∧ q = parsePercent j n := by
  induction fs with
  | nil =>
    intro n i acc total hn
    simp [relParseLoop]
  | cons f rest ih =>
    intro n i acc total hn
    have hin : i < n := by simp at hn; omega
    simp only [relParseLoop]
    cases hpr : f.parseResult with
    | error msg =>
      intro q hq
      simp at hq
      exact ⟨i, hin, hq⟩
    | ok hr =>
      obtain ⟨headers, rows⟩ := hr
      by_cases hemp : headers.isEmpty
      · intro q hq
        simp [hemp] at hq
        exact ⟨i, hin, hq⟩
      · by_cases hmiss : ∀ c ∈ REQUIRED_COLUMNS, c ∈ headers
        · have hfilt : (REQUIRED_COLUMNS.filter (fun c => !headers.contains c)) = [] := by
            rw [List.filter_eq_nil_iff]
            intro c hc
            simp [hmiss c hc]
          simp only [hemp, hfilt, List.isEmpty_nil, if_true, Bool.false_eq_true, if_false]
          intro q hq
          rw [progressPercents_cons_progress] at hq
          rcases List.mem_cons.mp hq with h | h
          · exact ⟨i, hin, h⟩
          · exact ih n (i + 1) _ _ (by simp at hn ⊢; omega) q h
        · intro q hq
          simp [hemp, hmiss] at hq
          exact ⟨i, hin, hq⟩

lemma den_one_of_nat (n : Nat) : ((n : ℚ)).den = 1 := Rat.den_natCast n

/-- Glue two sorted percent lists along a pivot, pairwise version. -/
lemma pairwise_le_append {A B : List ℚ} (c : ℚ)
    (hA : A.Pairwise (· ≤ ·)) (hB : B.Pairwise (· ≤ ·))
    (hAc : ∀ a ∈ A, a ≤ c) (hcB : ∀ b ∈ B, c ≤ b) :
    (A ++ B).Pairwise (· ≤ ·) :=
  List.pairwise_append.mpr ⟨hA, hB, fun a ha b hb => le_trans (hAc a ha) (hcB b hb)⟩

lemma uploadNodes_run_spec (inp : RunInput) (g0 : Graph) :
    ((progressPercents (uploadNodes inp g0).1).Chain' (· ≤ ·)
     ∧ terminalCount (uploadNodes inp g0).1 = 1
     ∧ (successEvents (uploadNodes inp g0).1 ≠ [] →
         (progressPercents (uploadNodes inp g0).1).getLast? = some 100)
     ∧ (∀ q ∈ progressPercents (uploadNodes inp g0).1,
         0 ≤ q ∧ q ≤ 100 ∧ (q.den = 1 ∨ ∃ i n, i < n ∧ q = parsePercent i n))
     ∧ (∀ q ∈ progressPercents (uploadNodes inp g0).1, q ≤ 25 ∨ q = 95 ∨ q = 100)
     ∧ (Op.openSession ∈ opsOf (uploadNodes inp g0).1 →
         Op.closeSession ∈ opsOf (uploadNodes inp g0).1)
     ∧ (Op.openDriver ∈ opsOf (uploadNodes inp g0).1 →
         (opsOf (uploadNodes inp g0).1).getLast? = some Op.closeDriver)) := by
  simp only [uploadNodes]
  by_cases h1 : inp.files.isEmpty
  · simp [h1]
  · rw [if_neg h1]
    by_cases h2 : (connPresent inp.connectionUrl && connPresent inp.username &&
        connPresent inp.password) = true
    · rw [if_neg (by simp [h2])]
      have hps := nodeParseLoop_spec inp.files inp.files.length 0 [] 0 (by omega)
      have hshape := nodeParseLoop_percents_shape inp.files inp.files.length 0 [] 0 (by omega)
      have hparse_bounds : ∀ q ∈ progressPercents
          (nodeParseLoop inp.files.length 0 inp.files [] 0).1, 5 ≤ q ∧ q ≤ 15 := by
        intro q hq
        have := hps.2.1 q hq
        exact ⟨le_trans (five_le_parsePercent 0 inp.files.length) this.1, this.2⟩
      cases hpr : (nodeParseLoop inp.files.length 0 inp.files [] 0).2 with
      | none =>
        simp only [hpr]
        constructor
        · simp only [progressPercents_append, progressPercents_cons_progress,
            progressPercents_nil]
          rw [List.singleton_append, List.chain'_cons']
          refine ⟨?_, hps.1⟩
          intro y hy
          have hym : y ∈ progressPercents (nodeParseLoop inp.files.length 0 inp.files [] 0).1 := by
            rw [List.eq_cons_of_mem_head? hy]
            exact List.mem_cons_self _ _
          exact le_trans (by norm_num) (hparse_bounds y hym).1
        constructor
        · simp [hps.2.2.2.2.1 hpr]
        constructor
        · intro hne
          exact absurd (by simp [hps.2.2.2.1]) hne
        constructor
        · intro q hq
          simp only [progressPercents_append, progressPercents_cons_progress,
            progressPercents_nil, List.singleton_append, List.nil_append] at hq
          rcases List.mem_cons.mp hq with h | h
          · subst h
            refine ⟨by norm_num, by norm_num, Or.inl (by norm_num)⟩
          · obtain ⟨j, hj, hq'⟩ := hshape q h
            have hb := hparse_bounds q h
            exact ⟨by linarith [hb.1], by linarith [hb.2],
              Or.inr ⟨j, inp.files.length, hj, hq'⟩⟩
        constructor
        · intro q hq
          simp only [progressPercents_append, progressPercents_cons_progress,
            progressPercents_nil, List.singleton_append, List.nil_append] at hq
          rcases List.mem_cons.mp hq with h | h
          · subst h
            left
            norm_num
          · left
            linarith [(hparse_bounds q h).2]
        · constructor
          · intro hmem
            simp [opsOf_append, hps.2.2.1] at hmem
          · intro hmem
            simp [opsOf_append, hps.2.2.1] at hmem
      | some res =>
        obtain ⟨pfs, tot⟩ := res
        simp only [hpr]
        have hpsPW := List.chain'_iff_pairwise.mp hps.1
        obtain ⟨htc0, newFs, hpfs, htot⟩ := hps.2.2.2.2.2 pfs tot hpr
        by_cases hdf : inp.driverFails = true
        · simp only [hdf, if_true]
          refine ⟨?_, ?_, ?_, ?_, ?_, ?_, ?_⟩
          · simp only [progressPercents_append, progressPercents_cons_progress,
              progressPercents_nil, progressPercents_cons_error, List.singleton_append,
              List.append_nil]
            rw [List.chain'_iff_pairwise]
            apply pairwise_le_append 15
            · rw [List.pairwise_cons]
              exact ⟨fun b hb => (hparse_bounds b hb).1.trans' (by norm_num), hpsPW⟩
            · norm_num [List.pairwise_cons]
            · intro a ha
              rcases List.mem_cons.mp ha with h | h
              · subst h
                norm_num
              · exact (hparse_bounds a h).2
            · intro b hb
              simp at hb
              rcases hb with rfl | rfl <;> norm_num
          · simp [htc0]
          · intro hne
            simp [hps.2.2.2.1] at hne
          · intro q hq
            simp only [progressPercents_append, progressPercents_cons_progress,
              progressPercents_nil, progressPercents_cons_error, List.singleton_append,
              List.append_nil] at hq
            rcases List.mem_cons.mp hq with h | h
            · subst h
              exact ⟨by norm_num, by norm_num, Or.inl (by norm_num)⟩
            rcases List.mem_append.mp h with h | h
            · obtain ⟨j, hj, hq'⟩ := hshape q h
              have hb := hparse_bounds q h
              exact ⟨by linarith [hb.1], by linarith [hb.2],
                Or.inr ⟨j, inp.files.length, hj, hq'⟩⟩
            · simp at h
              rcases h with rfl | rfl <;>
                exact ⟨by norm_num, by norm_num, Or.inl (by norm_num)⟩
          · intro q hq
            simp only [progressPercents_append, progressPercents_cons_progress,
              progressPercents_nil, progressPercents_cons_error, List.singleton_append,
              List.append_nil] at hq
            rcases List.mem_cons.mp hq with h | h
            · subst h
              left
              norm_num
            rcases List.mem_append.mp h with h | h
            · left
              linarith [(hparse_bounds q h).2]
            · simp at h
              rcases h with rfl | rfl
              · left
                norm_num
              · left
                norm_num
          · intro hmem
            simp [opsOf_append, hps.2.2.1] at hmem
          · intro hmem
            simp [opsOf_append, hps.2.2.1] at hmem
        · rw [if_neg hdf]
          have hwf := nodeWriteFiles_spec pfs inp.failAt ⟨0, 0, 0, g0⟩
          obtain ⟨hwEv, hwOps, hwOk⟩ := hwf
          have hwPP := progressPercents_of_no_events hwEv
          have hwTC := terminalCount_of_no_events hwEv
          have hwSE := successEvents_of_no_events hwEv
          by_cases hw : (nodeWriteFiles inp.failAt pfs ⟨0, 0, 0, g0⟩).2.2 = true
          · rw [if_pos hw]
            refine ⟨?_, ?_, ?_, ?_, ?_, ?_, ?_⟩
            · simp only [progressPercents_append, progressPercents_cons_progress,
                progressPercents_nil, progressPercents_cons_success, progressPercents_cons_op,
                List.singleton_append, List.append_nil, hwPP]
              rw [List.chain'_iff_pairwise]
              apply pairwise_le_append 25
              apply pairwise_le_append 25
              apply pairwise_le_append 15
              · rw [List.pairwise_cons]
                exact ⟨fun b hb => (hparse_bounds b hb).1.trans' (by norm_num), hpsPW⟩
              · norm_num [List.pairwise_cons]
              · intro a ha
                rcases List.mem_cons.mp ha with h | h
                · subst h
                  norm_num
                · linarith [(hparse_bounds a h).2]
              · intro b hb
                simp at hb
                rcases hb with rfl | rfl <;> norm_num
              · norm_num [List.pairwise_cons]
              · intro a ha
                rcases List.mem_append.mp ha with h | h
                · rcases List.mem_cons.mp h with h | h
                  · subst h
                    norm_num
                  · linarith [(hparse_bounds a h).2]
                · simp at h
                  rcases h with rfl | rfl <;> norm_num
              · intro b hb
                simp at hb
                subst hb
                norm_num
              · norm_num [List.pairwise_cons]
              · intro a ha
                rcases List.mem_append.mp ha with h | h
                · rcases List.mem_append.mp h with h | h
                  · rcases List.mem_cons.mp h with h | h
                    · subst h
                      norm_num
                    · linarith [(hparse_bounds a h).2]
                  · simp at h
                    rcases h with rfl | rfl <;> norm_num
                · simp at h
                  subst h
                  norm_num
              · intro b hb
                simp at hb
                rcases hb with rfl | rfl <;> norm_num
            · simp only [terminalCount_append, terminalCount_cons_progress,
                terminalCount_cons_success, terminalCount_cons_op, terminalCount_nil,
                htc0, hwTC]
            · intro hne
              simp only [progressPercents_append, progressPercents_cons_progress,
                progressPercents_nil, progressPercents_cons_success, progressPercents_cons_op,
                List.singleton_append, List.append_nil, hwPP]
              rw [List.getLast?_append_of_ne_nil _ (by simp)]
              rfl
            · intro q hq
              simp only [progressPercents_append, progressPercents_cons_progress,
                progressPercents_nil, progressPercents_cons_success, progressPercents_cons_op,
                List.singleton_append, List.append_nil, hwPP] at hq
              rcases List.mem_append.mp hq with h | h
              · rcases List.mem_append.mp h with h | h
                · rcases List.mem_append.mp h with h | h
                  · rcases List.mem_cons.mp h with h | h
                    · subst h
                      exact ⟨by norm_num, by norm_num, Or.inl (by norm_num)⟩
                    · obtain ⟨j, hj, hq'⟩ := hshape q h
                      have hb := hparse_bounds q h
                      exact ⟨by linarith [hb.1], by linarith [hb.2],
                        Or.inr ⟨j, inp.files.length, hj, hq'⟩⟩
                  · simp at h
                    rcases h with rfl | rfl <;>
                      exact ⟨by norm_num, by norm_num, Or.inl (by norm_num)⟩
                · simp at h
                  subst h
                  exact ⟨by norm_num, by norm_num, Or.inl (by norm_num)⟩
              · simp at h
                rcases h with rfl | rfl <;>
                  exact ⟨by norm_num, by norm_num, Or.inl (by norm_num)⟩
            · intro q hq
              simp only [progressPercents_append, progressPercents_cons_progress,
                progressPercents_nil, progressPercents_cons_success, progressPercents_cons_op,
                List.singleton_append, List.append_nil, hwPP] at hq
              rcases List.mem_append.mp hq with h | h
              · rcases List.mem_append.mp h with h | h
                · rcases List.mem_append.mp h with h | h
                  · rcases List.mem_cons.mp h with h | h
                    · subst h
                      left
                      norm_num
                    · left
                      linarith [(hparse_bounds q h).2]
                  · simp at h
                    rcases h with rfl | rfl <;> (left ; norm_num)
                · simp at h
                  subst h
                  left
                  norm_num
              · simp at h
                rcases h with rfl | rfl
                · right
                  left
                  norm_num
                · right
                  right
                  norm_num
            · intro hmem
              simp only [opsOf_append, opsOf_cons_ev, opsOf_cons_op, opsOf_nil,
                hps.2.2.1, List.nil_append, List.append_nil]
              simp
            · intro hmem
              simp only [opsOf_append, opsOf_cons_ev, opsOf_cons_op, opsOf_nil,
                hps.2.2.1, List.nil_append, List.append_nil]
              rw [List.getLast?_append_of_ne_nil _ (by simp)]
              rfl
          · rw [if_neg hw]
            refine ⟨?_, ?_, ?_, ?_, ?_, ?_, ?_⟩
            · simp only [progressPercents_append, progressPercents_cons_progress,
                progressPercents_nil, progressPercents_cons_error, progressPercents_cons_op,
                List.singleton_append, List.append_nil, hwPP]
              rw [List.chain'_iff_pairwise]
              apply pairwise_le_append 25
              apply pairwise_le_append 15
              · rw [List.pairwise_cons]
                exact ⟨fun b hb => (hparse_bounds b hb).1.trans' (by norm_num), hpsPW⟩
              · norm_num [List.pairwise_cons]
              · intro a ha
                rcases List.mem_cons.mp ha with h | h
                · subst h
                  norm_num
                · linarith [(hparse_bounds a h).2]
              · intro b hb
                simp at hb
                rcases hb with rfl | rfl <;> norm_num
              · norm_num [List.pairwise_cons]
              · intro a ha
                rcases List.mem_append.mp ha with h | h
                · rcases List.mem_cons.mp h with h | h
                  · subst h
                    norm_num
                  · linarith [(hparse_bounds a h).2]
                · simp at h
                  rcases h with rfl | rfl <;> norm_num
              · intro b hb
                simp at hb
                subst hb
                norm_num
            · simp only [terminalCount_append, terminalCount_cons_progress,
                terminalCount_cons_error, terminalCount_cons_op, terminalCount_nil,
                htc0, hwTC]
            · intro hne
              exfalso
              apply hne
              simp [hps.2.2.2.1, hwSE]
            · intro q hq
              simp only [progressPercents_append, progressPercents_cons_progress,
                progressPercents_nil, progressPercents_cons_error, progressPercents_cons_op,
                List.singleton_append, List.append_nil, hwPP] at hq
              rcases List.mem_append.mp hq with h | h
              · rcases List.mem_append.mp h with h | h
                · rcases List.mem_cons.mp h with h | h
                  · subst h
                    exact ⟨by norm_num, by norm_num, Or.inl (by norm_num)⟩
                  · obtain ⟨j, hj, hq'⟩ := hshape q h
                    have hb := hparse_bounds q h
                    exact ⟨by linarith [hb.1], by linarith [hb.2],
                      Or.inr ⟨j, inp.files.length, hj, hq'⟩⟩
                · simp at h
                  rcases h with rfl | rfl <;>
                    exact ⟨by norm_num, by norm_num, Or.inl (by norm_num)⟩
              · simp at h
                subst h
                exact ⟨by norm_num, by norm_num, Or.inl (by norm_num)⟩
            · intro q hq
              simp only [progressPercents_append, progressPercents_cons_progress,
                progressPercents_nil, progressPercents_cons_error, progressPercents_cons_op,
                List.singleton_append, List.append_nil, hwPP] at hq
              rcases List.mem_append.mp hq with h | h
              · rcases List.mem_append.mp h with h | h
                · rcases List.mem_cons.mp h with h | h
                  · subst h
                    left
                    norm_num
                  · left
                    linarith [(hparse_bounds q h).2]
                · simp at h
                  rcases h with rfl | rfl <;> (left ; norm_num)
              · simp at h
                subst h
                left
                norm_num
            · intro hmem
              simp only [opsOf_append, opsOf_cons_ev, opsOf_cons_op, opsOf_nil,
                hps.2.2.1, List.nil_append, List.append_nil]
              simp
            · intro hmem
              simp only [opsOf_append, opsOf_cons_ev, opsOf_cons_op, opsOf_nil,
                hps.2.2.1, List.nil_append, List.append_nil]
              rw [List.getLast?_append_of_ne_nil _ (by simp)]
              rfl
    · have h2f : (connPresent inp.connectionUrl && connPresent inp.username &&
          connPresent inp.password) = false := by
        cases h : (connPresent inp.connectionUrl && connPresent inp.username &&
          connPresent inp.password)
        · rfl
        · exact absurd h h2
      rw [h2f]
      simp

lemma groupedCount_le_length (key : String) (rows : List Row) :
    groupedCount key rows ≤ rows.length :=
  List.length_filter_le _ rows

lemma wpState_false_append {A B : List Item}
    (hA : wpState false A = some false) (hB : wpState false B = some false) :
    wpState false (A ++ B) = some false := by
  rw [wpState_append, hA]
  simpa using hB

lemma uploadRelationships_run_spec (inp : RunInput) (g0 : Graph) :
    ((progressPercents (uploadRelationships inp g0).1).Chain' (· ≤ ·)
     ∧ terminalCount (uploadRelationships inp g0).1 = 1
     ∧ (successEvents (uploadRelationships inp g0).1 ≠ [] →
         (progressPercents (uploadRelationships inp g0).1).getLast? = some 100)
     ∧ (∀ q ∈ progressPercents (uploadRelationships inp g0).1,
         0 ≤ q ∧ q ≤ 100 ∧ (q.den = 1 ∨ ∃ i n, i < n ∧ q = parsePercent i n))
     ∧ (∀ q ∈ progressPercents (uploadRelationships inp g0).1,
         q ∈ ([5, 15, 20, 25, 30, 95, 100] : List ℚ)
         ∨ (∃ i n, i < n ∧ q = parsePercent i n)
         ∨ (∃ p T, p ≤ T ∧ q = relPercent p T))
     ∧ (Op.openSession ∈ opsOf (uploadRelationships inp g0).1 →
         Op.closeSession ∈ opsOf (uploadRelationships inp g0).1)
     ∧ (Op.openDriver ∈ opsOf (uploadRelationships inp g0).1 →
         (opsOf (uploadRelationships inp g0).1).getLast? = some Op.closeDriver)
     ∧ writingProgressOk (uploadRelationships inp g0).1 = true) := by
  simp only [uploadRelationships]
  by_cases h1 : inp.files.isEmpty
  · simp [h1, writingProgressOk, wpState]
  · rw [if_neg h1]
    by_cases h2 : (connPresent inp.connectionUrl && connPresent inp.username &&
        connPresent inp.password) = true
    · rw [if_neg (by simp [h2])]
      have hps := relParseLoop_spec inp.files inp.files.length 0 [] 0 (by omega)
      have hshape := relParseLoop_percents_shape inp.files inp.files.length 0 [] 0 (by omega)
      have hparse_bounds : ∀ q ∈ progressPercents
          (relParseLoop inp.files.length 0 inp.files [] 0).1, 5 ≤ q ∧ q ≤ 15 := by
        intro q hq
        have := hps.2.1 q hq
        exact ⟨le_trans (five_le_parsePercent 0 inp.files.length) this.1, this.2⟩
      have hpsPW := List.chain'_iff_pairwise.mp hps.1
      have hpsWP : wpState false (relParseLoop inp.files.length 0 inp.files [] 0).1
          = some false := by
        apply wpState_of_no_writes
        rw [hps.2.2.1]
        simp
      cases hpr : (relParseLoop inp.files.length 0 inp.files [] 0).2 with
      | none =>
        simp only [hpr]
        refine ⟨?_, ?_, ?_, ?_, ?_, ?_, ?_, ?_⟩
        · simp only [progressPercents_append, progressPercents_cons_progress,
            progressPercents_nil, List.singleton_append]
          rw [List.chain'_cons']
          refine ⟨?_, hps.1⟩
          intro y hy
          have hym : y ∈ progressPercents (relParseLoop inp.files.length 0 inp.files [] 0).1 := by
            rw [List.eq_cons_of_mem_head? hy]
            exact List.mem_cons_self _ _
          exact le_trans (by norm_num) (hparse_bounds y hym).1
        · simp [hps.2.2.2.2.1 hpr]
        · intro hne
          exfalso
          apply hne
          simp [hps.2.2.2.1]
        · intro q hq
          simp only [progressPercents_append, progressPercents_cons_progress,
            progressPercents_nil, List.singleton_append] at hq
          rcases List.mem_cons.mp hq with h | h
          · subst h
            exact ⟨by norm_num, by norm_num, Or.inl (by norm_num)⟩
          · obtain ⟨j, hj, hq'⟩ := hshape q h
            have hb := hparse_bounds q h
            exact ⟨by linarith [hb.1], by linarith [hb.2],
              Or.inr ⟨j, inp.files.length, hj, hq'⟩⟩
        · intro q hq
          simp only [progressPercents_append, progressPercents_cons_progress,
            progressPercents_nil, List.singleton_append] at hq
          rcases List.mem_cons.mp hq with h | h
          · subst h
            left
            simp
          · obtain ⟨j, hj, hq'⟩ := hshape q h
            exact Or.inr (Or.inl ⟨j, inp.files.length, hj, hq'⟩)
        · intro hmem
          simp [opsOf_append, hps.2.2.1] at hmem
        · intro hmem
          simp [opsOf_append, hps.2.2.1] at hmem
        · unfold writingProgressOk
          rw [wpState_false_append (by rfl) hpsWP]
          rfl
      | some res =>
        obtain ⟨pfs, tot⟩ := res
        simp only [hpr]
        obtain ⟨htc0, newFs, hpfs, htot⟩ := hps.2.2.2.2.2 pfs tot hpr
        have htot2 : tot = (pfs.map (fun pf => pf.rows.length)).sum := by
          rw [hpfs, htot]
          simp
        by_cases hdf : inp.driverFails = true
        · simp only [hdf, if_true]
          refine ⟨?_, ?_, ?_, ?_, ?_, ?_, ?_, ?_⟩
          · simp only [progressPercents_append, progressPercents_cons_progress,
              progressPercents_nil, progressPercents_cons_error, List.singleton_append,
              List.append_nil]
            rw [List.chain'_iff_pairwise]
            apply pairwise_le_append 15
            · rw [List.pairwise_cons]
              exact ⟨fun b hb => (hparse_bounds b hb).1.trans' (by norm_num), hpsPW⟩
            · norm_num [List.pairwise_cons]
            · intro a ha
              rcases List.mem_cons.mp ha with h | h
              · subst h
                norm_num
              · exact (hparse_bounds a h).2
            · intro b hb
              simp at hb
              rcases hb with rfl | rfl <;> norm_num
          · simp [htc0]
          · intro hne
            exfalso
            apply hne
            simp [hps.2.2.2.1]
          · intro q hq
            simp only [progressPercents_append, progressPercents_cons_progress,
              progressPercents_nil, progressPercents_cons_error, List.singleton_append,
              List.append_nil] at hq
            rcases List.mem_cons.mp hq with h | h
            · subst h
              exact ⟨by norm_num, by norm_num, Or.inl (by norm_num)⟩
            rcases List.mem_append.mp h with h | h
            · obtain ⟨j, hj, hq'⟩ := hshape q h
              have hb := hparse_bounds q h
              exact ⟨by linarith [hb.1], by linarith [hb.2],
                Or.inr ⟨j, inp.files.length, hj, hq'⟩⟩
            · simp at h
              rcases h with rfl | rfl <;>
                exact ⟨by norm_num, by norm_num, Or.inl (by norm_num)⟩
          · intro q hq
            simp only [progressPercents_append, progressPercents_cons_progress,
              progressPercents_nil, progressPercents_cons_error, List.singleton_append,
              List.append_nil] at hq
            rcases List.mem_cons.mp hq with h | h
            · subst h
              left
              simp
            rcases List.mem_append.mp h with h | h
            · obtain ⟨j, hj, hq'⟩ := hshape q h
              exact Or.inr (Or.inl ⟨j, inp.files.length, hj, hq'⟩)
            · simp at h
              rcases h with rfl | rfl
              · left
                simp
              · left
                simp
          · intro hmem
            simp [opsOf_append, hps.2.2.1] at hmem
          · intro hmem
            simp [opsOf_append, hps.2.2.1] at hmem
          · unfold writingProgressOk
            rw [wpState_false_append (wpState_false_append
              (wpState_false_append (by rfl) hpsWP) (by rfl)) (by rfl)]
            rfl
        · rw [if_neg hdf]
          have hwf := relWriteFiles_spec pfs inp.failAt tot ⟨0, 0, 0, g0⟩
          obtain ⟨wA, wB, wC1, wC2, wD1, wD2, wE, wF, wG⟩ := hwf
          have hwPW := List.chain'_iff_pairwise.mp wB
          have hTbound : (relWriteFiles inp.failAt tot pfs ⟨0, 0, 0, g0⟩).2.1.processed
              ≤ tot := by
            refine le_trans wD2 ?_
            rw [htot2]
            simp only [Nat.zero_add]
            apply List.sum_le_sum
            intro pf hpf
            exact groupedCount_le_length "TYPE" pf.rows
          have hwBounds : ∀ q ∈ progressPercents
              (relWriteFiles inp.failAt tot pfs ⟨0, 0, 0, g0⟩).1,
              30 ≤ q ∧ q ≤ 95 ∧ q.den = 1 ∧ ∃ p T, p ≤ T ∧ q = relPercent p T := by
            intro q hq
            obtain ⟨p, hp1, hp2, hp3⟩ := wA q hq
            have hpT : p ≤ tot := le_trans hp2 hTbound
            subst hp3
            exact ⟨relPercent_lb p tot, relPercent_ub hpT, jsRound_den, p, tot, hpT, rfl⟩
          have hwWP : wpState false (relWriteFiles inp.failAt tot pfs ⟨0, 0, 0, g0⟩).1
              = some false := wpState_relWriteFiles pfs inp.failAt tot ⟨0, 0, 0, g0⟩
          by_cases hw : (relWriteFiles inp.failAt tot pfs ⟨0, 0, 0, g0⟩).2.2 = true
          · rw [if_pos hw]
            refine ⟨?_, ?_, ?_, ?_, ?_, ?_, ?_, ?_⟩
            · simp only [progressPercents_append, progressPercents_cons_progress,
                progressPercents_nil, progressPercents_cons_success, progressPercents_cons_op,
                List.singleton_append, List.append_nil]
              rw [List.chain'_iff_pairwise]
              apply pairwise_le_append 95
              apply pairwise_le_append 30
              apply pairwise_le_append 25
              apply pairwise_le_append 15
              · rw [List.pairwise_cons]
                exact ⟨fun b hb => (hparse_bounds b hb).1.trans' (by norm_num), hpsPW⟩
              · norm_num [List.pairwise_cons]
              · intro a ha
                rcases List.mem_cons.mp ha with h | h
                · subst h
                  norm_num
                · exact (hparse_bounds a h).2
              · intro b hb
                simp at hb
                rcases hb with rfl | rfl <;> norm_num
              · norm_num [List.pairwise_cons]
              · intro a ha
                rcases List.mem_append.mp ha with h | h
                · rcases List.mem_cons.mp h with h | h
                  · subst h
                    norm_num
                  · linarith [(hparse_bounds a h).2]
                · simp at h
                  rcases h with rfl | rfl <;> norm_num
              · intro b hb
                simp at hb
                rcases hb with rfl | rfl <;> norm_num
              · exact hwPW
              · intro a ha
                rcases List.mem_append.mp ha with h | h
                · rcases List.mem_append.mp h with h | h
                  · rcases List.mem_cons.mp h with h | h
                    · subst h
                      norm_num
                    · linarith [(hparse_bounds a h).2]
                  · simp at h
                    rcases h with rfl | rfl <;> norm_num
                · simp at h
                  rcases h with rfl | rfl <;> norm_num
              · intro b hb
                exact (hwBounds b hb).1
              · norm_num [List.pairwise_cons]
              · intro a ha
                rcases List.mem_append.mp ha with h | h
                · rcases List.mem_append.mp h with h | h
                  · rcases List.mem_append.mp h with h | h
                    · rcases List.mem_cons.mp h with h | h
                      · subst h
                        norm_num
                      · linarith [(hparse_bounds a h).2]
                    · simp at h
                      rcases h with rfl | rfl <;> norm_num
                  · simp at h
                    rcases h with rfl | rfl <;> norm_num
                · linarith [(hwBounds a h).2.1]
              · intro b hb
                simp at hb
                rcases hb with rfl | rfl <;> norm_num
            · simp only [terminalCount_append, terminalCount_cons_progress,
                terminalCount_cons_success, terminalCount_cons_op, terminalCount_nil,
                htc0, terminalCount_of_no_events, wC1]
            · intro hne
              simp only [progressPercents_append, progressPercents_cons_progress,
                progressPercents_nil, progressPercents_cons_success, progressPercents_cons_op,
                List.singleton_append, List.append_nil]
              rw [List.getLast?_append_of_ne_nil _ (by simp)]
              rfl
            · intro q hq
              simp only [progressPercents_append, progressPercents_cons_progress,
                progressPercents_nil, progressPercents_cons_success, progressPercents_cons_op,
                List.singleton_append, List.append_nil] at hq
              rcases List.mem_append.mp hq with h | h
              · rcases List.mem_append.mp h with h | h
                · rcases List.mem_append.mp h with h | h
                  · rcases List.mem_append.mp h with h | h
                    · rcases List.mem_cons.mp h with h | h
                      · subst h
                        exact ⟨by norm_num, by norm_num, Or.inl (by norm_num)⟩
                      · obtain ⟨j, hj, hq'⟩ := hshape q h
                        have hb := hparse_bounds q h
                        exact ⟨by linarith [hb.1], by linarith [hb.2],
                          Or.inr ⟨j, inp.files.length, hj, hq'⟩⟩
                    · simp at h
                      rcases h with rfl | rfl <;>
                        exact ⟨by norm_num, by norm_num, Or.inl (by norm_num)⟩
                  · simp at h
                    rcases h with rfl | rfl <;>
                      exact ⟨by norm_num, by norm_num, Or.inl (by norm_num)⟩
                · obtain ⟨hq30, hq95, hden, _⟩ := hwBounds q h
                  exact ⟨by linarith, by linarith, Or.inl hden⟩
              · simp at h
                rcases h with rfl | rfl <;>
                  exact ⟨by norm_num, by norm_num, Or.inl (by norm_num)⟩
            · intro q hq
              simp only [progressPercents_append, progressPercents_cons_progress,
                progressPercents_nil, progressPercents_cons_success, progressPercents_cons_op,
                List.singleton_append, List.append_nil] at hq
              rcases List.mem_append.mp hq with h | h
              · rcases List.mem_append.mp h with h | h
                · rcases List.mem_append.mp h with h | h
                  · rcases List.mem_append.mp h with h | h
                    · rcases List.mem_cons.mp h with h | h
                      · subst h
                        left
                        simp
                      · obtain ⟨j, hj, hq'⟩ := hshape q h
                        exact Or.inr (Or.inl ⟨j, inp.files.length, hj, hq'⟩)
                    · simp at h
                      rcases h with rfl | rfl
                      · left
                        simp
                      · left
                        simp
                  · simp at h
                    rcases h with rfl | rfl
                    · left
                      simp
                    · left
                      simp
                · obtain ⟨_, _, _, p, T, hpT, hq'⟩ := hwBounds q h
                  exact Or.inr (Or.inr ⟨p, T, hpT, hq'⟩)
              · simp at h
                rcases h with rfl | rfl
                · left
                  simp
                · left
                  simp
            · intro hmem
              simp only [opsOf_append, opsOf_cons_ev, opsOf_cons_op, opsOf_nil,
                hps.2.2.1, List.nil_append, List.append_nil]
              simp
            · intro hmem
              simp only [opsOf_append, opsOf_cons_ev, opsOf_cons_op, opsOf_nil,
                hps.2.2.1, List.nil_append, List.append_nil]
              rw [List.getLast?_append_of_ne_nil _ (by simp)]
              rfl
            · unfold writingProgressOk
              rw [wpState_false_append (wpState_false_append (wpState_false_append
                (wpState_false_append (wpState_false_append (by rfl) hpsWP) (by rfl))
                (by rfl)) hwWP) (by rfl)]
              rfl
          · rw [if_neg hw]
            refine ⟨?_, ?_, ?_, ?_, ?_, ?_, ?_, ?_⟩
            · simp only [progressPercents_append, progressPercents_cons_progress,
                progressPercents_nil, progressPercents_cons_error, progressPercents_cons_op,
                List.singleton_append, List.append_nil]
              rw [List.chain'_iff_pairwise]
              apply pairwise_le_append 30
              apply pairwise_le_append 25
              apply pairwise_le_append 15
              · rw [List.pairwise_cons]
                exact ⟨fun b hb => (hparse_bounds b hb).1.trans' (by norm_num), hpsPW⟩
              · norm_num [List.pairwise_cons]
              · intro a ha
                rcases List.mem_cons.mp ha with h | h
                · subst h
                  norm_num
                · exact (hparse_bounds a h).2
              · intro b hb
                simp at hb
                rcases hb with rfl | rfl <;> norm_num
              · norm_num [List.pairwise_cons]
              · intro a ha
                rcases List.mem_append.mp ha with h | h
                · rcases List.mem_cons.mp h with h | h
                  · subst h
                    norm_num
                  · linarith [(hparse_bounds a h).2]
                · simp at h
                  rcases h with rfl | rfl <;> norm_num
              · intro b hb
                simp at hb
                rcases hb with rfl | rfl <;> norm_num
              · exact hwPW
              · intro a ha
                rcases List.mem_append.mp ha with h | h
                · rcases List.mem_append.mp h with h | h
                  · rcases List.mem_cons.mp h with h | h
                    · subst h
                      norm_num
                    · linarith [(hparse_bounds a h).2]
                  · simp at h
                    rcases h with rfl | rfl <;> norm_num
                · simp at h
                  rcases h with rfl | rfl <;> norm_num
              · intro b hb
                exact (hwBounds b hb).1
            · simp only [terminalCount_append, terminalCount_cons_progress,
                terminalCount_cons_error, terminalCount_cons_op, terminalCount_nil,
                htc0, terminalCount_of_no_events, wC1]
            · intro hne
              exfalso
              apply hne
              simp [hps.2.2.2.1, wC2]
            · intro q hq
              simp only [progressPercents_append, progressPercents_cons_progress,
                progressPercents_nil, progressPercents_cons_error, progressPercents_cons_op,
                List.singleton_append, List.append_nil] at hq
              rcases List.mem_append.mp hq with h | h
              · rcases List.mem_append.mp h with h | h
                · rcases List.mem_append.mp h with h | h
                  · rcases List.mem_cons.mp h with h | h
                    · subst h
                      exact ⟨by norm_num, by norm_num, Or.inl (by norm_num)⟩
                    · obtain ⟨j, hj, hq'⟩ := hshape q h
                      have hb := hparse_bounds q h
                      exact ⟨by linarith [hb.1], by linarith [hb.2],
                        Or.inr ⟨j, inp.files.length, hj, hq'⟩⟩
                  · simp at h
                    rcases h with rfl | rfl <;>
                      exact ⟨by norm_num, by norm_num, Or.inl (by norm_num)⟩
                · simp at h
                  rcases h with rfl | rfl <;>
                    exact ⟨by norm_num, by norm_num, Or.inl (by norm_num)⟩
              · obtain ⟨hq30, hq95, hden, _⟩ := hwBounds q h
                exact ⟨by linarith, by linarith, Or.inl hden⟩
            · intro q hq
              simp only [progressPercents_append, progressPercents_cons_progress,
                progressPercents_nil, progressPercents_cons_error, progressPercents_cons_op,
                List.singleton_append, List.append_nil] at hq
              rcases List.mem_append.mp hq with h | h
              · rcases List.mem_append.mp h with h | h
                · rcases List.mem_append.mp h with h | h
                  · rcases List.mem_cons.mp h with h | h
                    · subst h
                      left
                      simp
                    · obtain ⟨j, hj, hq'⟩ := hshape q h
                      exact Or.inr (Or.inl ⟨j, inp.files.length, hj, hq'⟩)
                  · simp at h
                    rcases h with rfl | rfl
                    · left
                      simp
                    · left
                      simp
                · simp at h
                  rcases h with rfl | rfl
                  · left
                    simp
                  · left
                    simp
              · obtain ⟨_, _, _, p, T, hpT, hq'⟩ := hwBounds q h
                exact Or.inr (Or.inr ⟨p, T, hpT, hq'⟩)
            · intro hmem
              simp only [opsOf_append, opsOf_cons_ev, opsOf_cons_op, opsOf_nil,
                hps.2.2.1, List.nil_append, List.append_nil]
              simp
            · intro hmem
              simp only [opsOf_append, opsOf_cons_ev, opsOf_cons_op, opsOf_nil,
                hps.2.2.1, List.nil_append, List.append_nil]
              rw [List.getLast?_append_of_ne_nil _ (by simp)]
              rfl
            · unfold writingProgressOk
              rw [wpState_false_append (wpState_false_append (wpState_false_append
                (wpState_false_append (wpState_false_append (by rfl) hpsWP) (by rfl))
                (by rfl)) hwWP) (by rfl)]
              rfl
    · have h2f : (connPresent inp.connectionUrl && connPresent inp.username &&
          connPresent inp.password) = false := by
        cases h : (connPresent inp.connectionUrl && connPresent inp.username &&
          connPresent inp.password)
        · rfl
        · exact absurd h h2
      rw [h2f]
      simp [writingProgressOk, wpState]

lemma nodeWriteBatches_ok (bs : List (List Row)) :
    ∀ (label : String) (s : WState), (nodeWriteBatches none label bs s).2.2 = true := by
  induction bs with
  | nil =>
    intro label s
    rfl
  | cons b rest ih =>
    intro label s
    simp only [nodeWriteBatches, writeFails, Bool.false_eq_true, if_false]
    exact ih label _

lemma nodeWriteGroups_ok (gs : List (String × List Row)) :
    ∀ (s : WState), (nodeWriteGroups none gs s).2.2 = true := by
  induction gs with
  | nil =>
    intro s
    rfl
  | cons g rest ih =>
    obtain ⟨label, rows⟩ := g
    intro s
    simp only [nodeWriteGroups, nodeWriteBatches_ok, if_true]
    exact ih _

lemma nodeWriteFiles_ok (pfs : List ParsedCSVData) :
    ∀ (s : WState), (nodeWriteFiles none pfs s).2.2 = true := by
  induction pfs with
  | nil =>
    intro s
    rfl
  | cons pf rest ih =>
    intro s
    simp only [nodeWriteFiles, nodeWriteGroups_ok, if_true]
    exact ih _

lemma relWriteBatches_ok (bs : List (List Row)) :
    ∀ (T : Nat) (rt : String) (s : WState), (relWriteBatches none T rt bs s).2.2 = true := by
  induction bs with
  | nil =>
    intro T rt s
    rfl
  | cons b rest ih =>
    intro T rt s
    simp only [relWriteBatches, writeFails, Bool.false_eq_true, if_false]
    exact ih T rt _

lemma relWriteGroups_ok (gs : List (String × List Row)) :
    ∀ (T : Nat) (s : WState), (relWriteGroups none T gs s).2.2 = true := by
  induction gs with
  | nil =>
    intro T s
    rfl
  | cons g rest ih =>
    obtain ⟨rt, rows⟩ := g
    intro T s
    simp only [relWriteGroups, relWriteBatches_ok, if_true]
    exact ih T _

lemma relWriteFiles_ok (pfs : List ParsedCSVData) :
    ∀ (T : Nat) (s : WState), (relWriteFiles none T pfs s).2.2 = true := by
  induction pfs with
  | nil =>
    intro T s
    rfl
  | cons pf rest ih =>
    intro T s
    simp only [relWriteFiles, relWriteGroups_ok, if_true]
    exact ih T _

lemma nodeParseLoop_all_valid (fs : List InFile) :
    ∀ (n i : Nat) (acc : List ParsedCSVData) (total : Nat),
    (∀ f ∈ fs, validNodeFile f = true) →
    (nodeParseLoop n i fs acc total).2
      = some (acc ++ fs.map parsedOf,
          total + (fs.map (fun f => (parsedOf f).rows.length)).sum) := by
  induction fs with
  | nil =>
    intro n i acc total hv
    simp [nodeParseLoop]
  | cons f rest ih =>
    intro n i acc total hv
    have hvf := hv f (List.mem_cons_self _ _)
    simp only [nodeParseLoop]
    cases hpr : f.parseResult with
    | error msg =>
      simp [validNodeFile, hpr] at hvf
    | ok hr =>
      obtain ⟨headers, rows⟩ := hr
      have hvf2 : ¬headers.isEmpty ∧ "LABEL" ∈ headers := by
        simp [validNodeFile, hpr] at hvf
        simpa using hvf
      dsimp only
      rw [if_neg (by simp [hvf2.1]), if_pos hvf2.2]
      rw [ih n (i + 1) _ _ (fun f' hf' => hv f' (List.mem_cons_of_mem _ hf'))]
      simp [parsedOf, hpr]
      omega

lemma relParseLoop_all_valid (fs : List InFile) :
    ∀ (n i : Nat) (acc : List ParsedCSVData) (total : Nat),
    (∀ f ∈ fs, validRelFile f = true) →
    (relParseLoop n i fs acc total).2
      = some (acc ++ fs.map parsedOf,
          total + (fs.map (fun f => (parsedOf f).rows.length)).sum) := by
  induction fs with
  | nil =>
    intro n i acc total hv
    simp [relParseLoop]
  | cons f rest ih =>
    intro n i acc total hv
    have hvf := hv f (List.mem_cons_self _ _)
    simp only [relParseLoop]
    cases hpr : f.parseResult with
    | error msg =>
      simp [validRelFile, hpr] at hvf
    | ok hr =>
      obtain ⟨headers, rows⟩ := hr
      have hvf2 : ¬headers.isEmpty ∧ ∀ c ∈ REQUIRED_COLUMNS, c ∈ headers := by
        simp [validRelFile, hpr] at hvf
        simpa using hvf
      have hfilt : (REQUIRED_COLUMNS.filter (fun c => !headers.contains c)) = [] := by
        rw [List.filter_eq_nil_iff]
        intro c hc
        simp [hvf2.2 c hc]
      dsimp only
      rw [if_neg (by simp [hvf2.1]), hfilt]
      simp only [List.isEmpty_nil, if_true]
      rw [ih n (i + 1) _ _ (fun f' hf' => hv f' (List.mem_cons_of_mem _ hf'))]
      simp [parsedOf, hpr]
      omega

lemma nodeParseLoop_first_invalid (pre : List InFile) :
    ∀ (f : InFile) (post : List InFile) (n i : Nat) (acc : List ParsedCSVData)
      (total : Nat) (h : List String) (rows : List Row),
    (∀ f' ∈ pre, validNodeFile f' = true) →
    f.parseResult = .ok (h, rows) → h.isEmpty = false → "LABEL" ∉ h →
    ((nodeParseLoop n i (pre ++ f :: post) acc total).2 = none
     ∧ (eventsOf (nodeParseLoop n i (pre ++ f :: post) acc total).1).filter isTerminal
        = [Event.error ("File \"" ++ f.name ++ "\" is missing required \"LABEL\" column")
            ["The CSV file must have a column named \"LABEL\" for the node type.",
             "Found columns: " ++ String.intercalate ", " h]]) := by
  induction pre with
  | nil =>
    intro f post n i acc total h rows hpre hok hemp hlab
    simp only [List.nil_append, nodeParseLoop]
    rw [hok]
    dsimp only
    rw [if_neg (by simp [hemp]), if_neg hlab]
    simp [eventsOf, isTerminal, List.filter]
  | cons f0 pre' ih =>
    intro f post n i acc total h rows hpre hok hemp hlab
    have hvf := hpre f0 (List.mem_cons_self _ _)
    simp only [List.cons_append, nodeParseLoop]
    cases hpr : f0.parseResult with
    | error msg =>
      simp [validNodeFile, hpr] at hvf
    | ok hr =>
      obtain ⟨headers, rows0⟩ := hr
      have hvf2 : ¬headers.isEmpty ∧ "LABEL" ∈ headers := by
        simp [validNodeFile, hpr] at hvf
        simpa using hvf
      dsimp only
      rw [if_neg (by simp [hvf2.1]), if_pos hvf2.2]
      have hrec := ih f post n (i + 1)
        (acc ++ [⟨f0.name, headers, rows0, rows0.length⟩]) (total + rows0.length) h rows
        (fun f' hf' => hpre f' (List.mem_cons_of_mem _ hf')) hok hemp hlab
      refine ⟨by simpa using hrec.1, ?_⟩
      simp only [eventsOf_cons_ev, List.filter]
      rw [show isTerminal (Event.progress (parsePercent i n)
        ("Parsing " ++ f0.name ++ "...")) = false from rfl]
      exact hrec.2

lemma no_error_of_terminalCount_zero {l : List Item} (h : terminalCount l = 0) :
    ∀ m d, Event.error m d ∉ eventsOf l := by
  intro m d hmem
  have hf : Event.error m d ∈ (eventsOf l).filter isTerminal :=
    List.mem_filter.mpr ⟨hmem, rfl⟩
  rw [List.length_eq_zero.mp h] at hf
  exact absurd hf (List.not_mem_nil _)

/-- A successful node upload run: the single terminal event is the
success summary counting only the grouped (non-empty `LABEL`) rows, no
error event exists, the store gains exactly the grouped rows as nodes,
and every batch written consists of `LABEL`-stripped rows whose `LABEL`
value equals the (non-empty) group label. -/
lemma uploadNodes_success_run (inp : RunInput) (g0 : Graph)
    (hc1 : connPresent inp.connectionUrl = true)
    (hc2 : connPresent inp.username = true)
    (hc3 : connPresent inp.password = true)
    (hne : inp.files ≠ [])
    (hv : ∀ f ∈ inp.files, validNodeFile f = true)
    (hdf : inp.driverFails = false)
    (hfa : inp.failAt = none) :
    (successEvents (uploadNodes inp g0).1
       = [(inp.files.length,
           (inp.files.map (fun f => groupedCount "LABEL" (parsedOf f).rows)).sum)]
     ∧ (∀ m d, Event.error m d ∉ eventsOf (uploadNodes inp g0).1)
     ∧ (uploadNodes inp g0).2.nodes = g0.nodes ++ filesNodes (inp.files.map parsedOf)
     ∧ (uploadNodes inp g0).2.rels = g0.rels
     ∧ (∀ o ∈ opsOf (uploadNodes inp g0).1, ∀ label batch, o = Op.writeNodes label batch →
         label ≠ "" ∧ ∀ v ∈ batch, ∃ f ∈ inp.files, ∃ r ∈ (parsedOf f).rows,
           rowVal "LABEL" r = label ∧ v = stripLabel r)) := by
  have hps := nodeParseLoop_spec inp.files inp.files.length 0 [] 0 (by omega)
  have hpr := nodeParseLoop_all_valid inp.files inp.files.length 0 [] 0 hv
  simp only [uploadNodes]
  rw [if_neg (by simpa [List.isEmpty_iff] using hne),
    if_neg (by simp [hc1, hc2, hc3]), hpr]
  simp only [List.nil_append, Nat.zero_add]
  rw [if_neg (by simp [hdf]), hfa]
  have hwok := nodeWriteFiles_ok (inp.files.map parsedOf) ⟨0, 0, 0, g0⟩
  rw [if_pos hwok]
  have hwf := nodeWriteFiles_spec (inp.files.map parsedOf) none ⟨0, 0, 0, g0⟩
  obtain ⟨hwEv, hwOps, hwOk⟩ := hwf
  obtain ⟨hwN, hwR, hwT⟩ := hwOk hwok
  have htc0 := (hps.2.2.2.2.2 _ _ hpr).1
  refine ⟨?_, ?_, ?_, ?_, ?_⟩
  · simp only [successEvents_append, successEvents_cons_progress, successEvents_cons_op,
      successEvents_cons_success, successEvents_nil, List.singleton_append,
      hps.2.2.2.1, successEvents_of_no_events hwEv, List.append_nil, List.nil_append]
    rw [hwT]
    simp only [List.length_map, List.map_map, Nat.zero_add]
    rfl
  · intro m d hmem
    simp only [eventsOf_append, eventsOf_cons_ev, eventsOf_cons_op, eventsOf_nil,
      List.singleton_append, List.append_nil, List.nil_append, hwEv] at hmem
    rcases List.mem_cons.mp hmem with h | h
    · exact absurd h (by simp)
    rcases List.mem_append.mp h with h | h
    rcases List.mem_append.mp h with h | h
    rcases List.mem_append.mp h with h | h
    · exact no_error_of_terminalCount_zero htc0 m d h
    · simp at h
    · simp at h
    · simp at h
  · exact hwN
  · exact hwR
  · intro o ho label batch hwr
    simp only [opsOf_append, opsOf_cons_ev, opsOf_cons_op, opsOf_nil, hps.2.2.1,
      List.singleton_append, List.append_nil, List.nil_append] at ho
    rcases List.mem_append.mp ho with h | h
    rcases List.mem_append.mp h with h | h
    · simp at h
      rcases h with rfl | rfl <;> exact absurd hwr (by simp)
    · obtain ⟨pf, hpf, g, hg, b, hb, ho'⟩ := hwOps o h
      rw [hwr] at ho'
      injection ho' with hlab hbatch
      obtain ⟨f, hf, hpfEq⟩ := List.mem_map.mp hpf
      have hgood := groupRows_mem "LABEL" stripLabel pf.rows g hg
      refine ⟨by rw [hlab]; exact hgood.1, ?_⟩
      intro v hv2
      rw [hbatch] at hv2
      have hvg : v ∈ g.2 :=
        sliceBatches_mem_subset (by simp [nodeBatchSize]) g.2 b hb v hv2
      obtain ⟨r, hr, hrv, hrs⟩ := hgood.2 v hvg
      exact ⟨f, hf, r, hpfEq ▸ hr, by rw [hlab]; exact hrv, hrs⟩
    · simp at h
      rcases h with rfl | rfl <;> exact absurd hwr (by simp)

/-- A successful relationship upload run: the single terminal event is the
success summary whose `totalRows` is the sum over all grouped rows of the
product of the two endpoint match counts against the initial store, no
error event exists, the store's nodes are untouched, and every batch
written consists of original rows with a non-empty `TYPE` equal to the
group's type. -/
lemma uploadRelationships_success_run (inp : RunInput) (g0 : Graph)
    (hc1 : connPresent inp.connectionUrl = true)
    (hc2 : connPresent inp.username = true)
    (hc3 : connPresent inp.password = true)
    (hne : inp.files ≠ [])
    (hv : ∀ f ∈ inp.files, validRelFile f = true)
    (hdf : inp.driverFails = false)
    (hfa : inp.failAt = none) :
    (successEvents (uploadRelationships inp g0).1
       = [(inp.files.length, relCreatedCount g0.nodes (inp.files.map parsedOf))]
     ∧ (∀ m d, Event.error m d ∉ eventsOf (uploadRelationships inp g0).1)
     ∧ (uploadRelationships inp g0).2.nodes = g0.nodes
     ∧ (∀ o ∈ opsOf (uploadRelationships inp g0).1, ∀ rt keys batch,
         o = Op.writeRels rt keys batch →
         rt ≠ "" ∧ keys = relKeys batch ∧ batch ≠ [] ∧
         ∀ r ∈ batch, ∃ f ∈ inp.files, r ∈ (parsedOf f).rows ∧ rowVal "TYPE" r = rt)) := by
  have hps := relParseLoop_spec inp.files inp.files.length 0 [] 0 (by omega)
  have hpr := relParseLoop_all_valid inp.files inp.files.length 0 [] 0 hv
  simp only [uploadRelationships]
  rw [if_neg (by simpa [List.isEmpty_iff] using hne),
    if_neg (by simp [hc1, hc2, hc3]), hpr]
  simp only [List.nil_append, Nat.zero_add]
  rw [if_neg (by simp [hdf]), hfa]
  have hwok := relWriteFiles_ok (inp.files.map parsedOf)
    ((inp.files.map (fun f => (parsedOf f).rows.length)).sum) ⟨0, 0, 0, g0⟩
  rw [if_pos hwok]
  have hwf := relWriteFiles_spec (inp.files.map parsedOf) none
    ((inp.files.map (fun f => (parsedOf f).rows.length)).sum) ⟨0, 0, 0, g0⟩
  obtain ⟨wA, wB, wC1, wC2, wD1, wD2, wE, wF, wG⟩ := hwf
  obtain ⟨wT, wP⟩ := wG hwok
  have htc0 := (hps.2.2.2.2.2 _ _ hpr).1
  refine ⟨?_, ?_, ?_, ?_⟩
  · simp only [successEvents_append, successEvents_cons_progress, successEvents_cons_op,
      successEvents_cons_success, successEvents_nil, List.singleton_append,
      hps.2.2.2.1, wC2, List.append_nil, List.nil_append]
    rw [wT]
    simp [List.length_map]
  · intro m d hmem
    simp only [eventsOf_append, eventsOf_cons_ev, eventsOf_cons_op, eventsOf_nil,
      List.singleton_append, List.append_nil, List.nil_append] at hmem
    rcases List.mem_cons.mp hmem with h | h
    · exact absurd h (by simp)
    rcases List.mem_append.mp h with h | h
    rcases List.mem_append.mp h with h | h
    rcases List.mem_append.mp h with h | h
    rcases List.mem_append.mp h with h | h
    · exact no_error_of_terminalCount_zero htc0 m d h
    · simp at h
    · simp at h
    · exact no_error_of_terminalCount_zero wC1 m d h
    · simp at h
  · exact wE
  · intro o ho rt keys batch hwr
    simp only [opsOf_append, opsOf_cons_ev, opsOf_cons_op, opsOf_nil, hps.2.2.1,
      List.singleton_append, List.append_nil, List.nil_append] at ho
    rcases List.mem_append.mp ho with h | h
    rcases List.mem_append.mp h with h | h
    · simp at h
      rcases h with rfl | rfl | rfl <;> exact absurd hwr (by simp)
    · obtain ⟨pf, hpf, g, hg, b, hb, ho'⟩ := wF o h
      rw [hwr] at ho'
      injection ho' with hrt hkeys hbatch
      obtain ⟨f, hf, hpfEq⟩ := List.mem_map.mp hpf
      have hgood := groupRows_mem "TYPE" id pf.rows g hg
      have hbne : b ≠ [] :=
        sliceBatches_mem_ne_nil (by simp [relBatchSize]) g.2 b hb
      refine ⟨by rw [hrt]; exact hgood.1, by rw [hkeys, hbatch], by rw [hbatch]; exact hbne, ?_⟩
      intro r hr2
      rw [hbatch] at hr2
      have hrg : r ∈ g.2 :=
        sliceBatches_mem_subset (by simp [relBatchSize]) g.2 b hb r hr2
      obtain ⟨r0, hr0, hrv, hrs⟩ := hgood.2 r hrg
      refine ⟨f, hf, ?_, ?_⟩
      · rw [hpfEq]
        simpa [hrs] using hr0
      · rw [hrt]
        simp only [hrs, id_eq]
        exact hrv
    · simp at h
      rcases h with rfl | rfl <;> exact absurd hwr (by simp)

lemma opsOf_nodeWriteBatches (bs : List (List Row)) :
    ∀ (label : String) (s : WState),
    opsOf (nodeWriteBatches none label bs s).1 = bs.map (Op.writeNodes label) := by
  induction bs with
  | nil =>
    intro label s
    rfl
  | cons b rest ih =>
    intro label s
    simp only [nodeWriteBatches, writeFails, Bool.false_eq_true, if_false,
      opsOf_cons_op, List.map_cons]
    rw [ih]

lemma opsOf_relWriteBatches (bs : List (List Row)) :
    ∀ (T : Nat) (rt : String) (s : WState),
    opsOf (relWriteBatches none T rt bs s).1
      = bs.map (fun b => Op.writeRels rt (relKeys b) b) := by
  induction bs with
  | nil =>
    intro T rt s
    rfl
  | cons b rest ih =>
    intro T rt s
    simp only [relWriteBatches, writeFails, Bool.false_eq_true, if_false,
      opsOf_cons_op, opsOf_cons_ev, List.map_cons]
    rw [ih]
    rfl

/-- Every property key the relationship write sets comes from the computed
`propertyKeys` list. -/
lemma relProps_keys_subset (keys : List String) (r : Row) :
    ∀ kv ∈ relProps keys r, kv.1 ∈ keys := by
  intro kv hkv
  obtain ⟨k, hk, hkv'⟩ := List.mem_filterMap.mp hkv
  cases hl : r.lookup k with
  | none => simp [hl] at hkv'
  | some v =>
    simp [hl] at hkv'
    rw [← hkv']
    exact hk

/-- The `LABEL` key never survives the destructuring
`const { LABEL: _, ...properties } = row`. -/
lemma stripLabel_no_LABEL (r : Row) : "LABEL" ∉ rowKeys (stripLabel r) := by
  intro hmem
  obtain ⟨p, hp, hp1⟩ := List.mem_map.mp hmem
  have := (List.mem_filter.mp hp).2
  simp at this
  exact this hp1

/-- Relabelling every node of the store. -/
def relabelNodes (L : String) (nodes : List GNode) : List GNode :=
  nodes.map (fun n => ⟨L, n.props⟩)

lemma idMatches_relabel (L : String) (nodes : List GNode) (v : Option String) :
    idMatches (relabelNodes L nodes) v = idMatches nodes v := by
  cases v with
  | none => rfl
  | some s =>
    simp only [idMatches, relabelNodes]
    rw [List.filter_map, List.length_map]
    rfl

lemma createdForRow_relabel (L : String) (nodes : List GNode) (r : Row) :
    createdForRow (relabelNodes L nodes) r = createdForRow nodes r := by
  simp [createdForRow, idMatches_relabel]

/-- In any relationship run, every batch-write operation carries property
keys computed from the first row of its batch. -/
lemma uploadRelationships_writeRels_ops (inp : RunInput) (g0 : Graph) :
    ∀ o ∈ opsOf (uploadRelationships inp g0).1, ∀ rt keys batch,
      o = Op.writeRels rt keys batch → batch ≠ [] ∧ keys = relKeys batch := by
  simp only [uploadRelationships]
  by_cases h1 : inp.files.isEmpty
  · simp [h1]
  · rw [if_neg h1]
    by_cases h2 : (connPresent inp.connectionUrl && connPresent inp.username &&
        connPresent inp.password) = true
    · rw [if_neg (by simp [h2])]
      have hps := relParseLoop_spec inp.files inp.files.length 0 [] 0 (by omega)
      cases hpr : (relParseLoop inp.files.length 0 inp.files [] 0).2 with
      | none =>
        simp only [hpr]
        intro o ho
        simp [opsOf_append, hps.2.2.1] at ho
      | some res =>
        obtain ⟨pfs, tot⟩ := res
        simp only [hpr]
        by_cases hdf : inp.driverFails = true
        · simp only [hdf, if_true]
          intro o ho
          simp [opsOf_append, hps.2.2.1] at ho
        · rw [if_neg hdf]
          obtain ⟨-, -, -, -, -, -, -, hwF, -⟩ :=
            relWriteFiles_spec pfs inp.failAt tot ⟨0, 0, 0, g0⟩
          have hcommon : ∀ o ∈ opsOf (relWriteFiles inp.failAt tot pfs ⟨0, 0, 0, g0⟩).1,
              ∀ rt keys batch, o = Op.writeRels rt keys batch →
              batch ≠ [] ∧ keys = relKeys batch := by
            intro o ho rt keys batch hwr
            obtain ⟨pf, hpf, g, hg, b, hb, ho'⟩ := hwF o ho
            rw [hwr] at ho'
            injection ho' with hrt hkeys hbatch
            have hbne : b ≠ [] :=
              sliceBatches_mem_ne_nil (by simp [relBatchSize]) g.2 b hb
            exact ⟨by rw [hbatch]; exact hbne, by rw [hkeys, hbatch]⟩
          by_cases hw : (relWriteFiles inp.failAt tot pfs ⟨0, 0, 0, g0⟩).2.2 = true
          · rw [if_pos hw]
            intro o ho rt keys batch hwr
            simp only [opsOf_append, opsOf_cons_ev, opsOf_cons_op, opsOf_nil, hps.2.2.1,
              List.singleton_append, List.append_nil, List.nil_append] at ho
            rcases List.mem_append.mp ho with h | h
            rcases List.mem_append.mp h with h | h
            · simp at h
              rcases h with rfl | rfl | rfl <;> exact absurd hwr (by simp)
            · exact hcommon o h rt keys batch hwr
            · simp at h
              rcases h with rfl | rfl <;> exact absurd hwr (by simp)
          · rw [if_neg hw]
            intro o ho rt keys batch hwr
            simp only [opsOf_append, opsOf_cons_ev, opsOf_cons_op, opsOf_nil, hps.2.2.1,
              List.singleton_append, List.append_nil, List.nil_append] at ho
            rcases List.mem_append.mp ho with h | h
            rcases List.mem_append.mp h with h | h
            · simp at h
              rcases h with rfl | rfl | rfl <;> exact absurd hwr (by simp)
            · exact hcommon o h rt keys batch hwr
            · simp at h
              rcases h with rfl | rfl <;> exact absurd hwr (by simp)
    · have h2f : (connPresent inp.connectionUrl && connPresent inp.username &&
          connPresent inp.password) = false := by
        cases h : (connPresent inp.connectionUrl && connPresent inp.username &&
          connPresent inp.password)
        · rfl
        · exact absurd h h2
      rw [h2f]
      simp

/-- C1: in every pipeline run (`uploadNodes` or `uploadRelationships`),
the emitted progress percents are monotonically non-decreasing, exactly
one terminal event (error line or success summary) is emitted, and when
the run ends in the success summary the last progress percent is exactly
100. -/
theorem claim_C1_progress_monotone_single_terminal (inp : RunInput) (g0 : Graph) :
    ((progressPercents (uploadNodes inp g0).1).Chain' (· ≤ ·)
     ∧ terminalCount (uploadNodes inp g0).1 = 1
     ∧ (successEvents (uploadNodes inp g0).1 ≠ [] →
         (progressPercents (uploadNodes inp g0).1).getLast? = some 100))
    ∧ ((progressPercents (uploadRelationships inp g0).1).Chain' (· ≤ ·)
     ∧ terminalCount (uploadRelationships inp g0).1 = 1
     ∧ (successEvents (uploadRelationships inp g0).1 ≠ [] →
         (progressPercents (uploadRelationships inp g0).1).getLast? = some 100)) := by
  obtain ⟨na, nb, nc, -, -, -, -⟩ := uploadNodes_run_spec inp g0
  obtain ⟨ra, rb, rc, -, -, -, -, -⟩ := uploadRelationships_run_spec inp g0
  exact ⟨⟨na, nb, nc⟩, ⟨ra, rb, rc⟩⟩

def c1File : InFile := ⟨"a.csv", .ok (["LABEL", "id"], [[("LABEL", "P"), ("id", "1")]])⟩

def c1Input : RunInput :=
  ⟨[c1File], some "bolt://h", some "u", some "p", false, false, none, "err"⟩

/-- Witness for C1 at a concrete successful run: the node pipeline's last
progress percent is exactly 100. -/
theorem claim_C1_witness :
    (progressPercents (uploadNodes c1Input ⟨[], []⟩).1).getLast? = some 100 :=
  (claim_C1_progress_monotone_single_terminal c1Input ⟨[], []⟩).1.2.2 (by decide)

def c2BadInput : RunInput :=
  ⟨[⟨"empty.csv", .ok ([], [])⟩], some "bolt://h", some "u", some "p", false, false, none, "err"⟩

/-- The detail lines of a terminal error event. -/
def errorDetails : Event → List String
  | .error _ d => d
  | _ => []

/-- Counterexample to C2 as stated: a node CSV whose (empty) header list
lacks the `LABEL` column, for which the run emits its single terminal
error with details that do NOT include the `Found columns: ` line — the
`has no headers` validation fires first. -/
theorem claim_C2_counterexample :
    terminalCount (uploadNodes c2BadInput ⟨[], []⟩).1 = 1
    ∧ ¬"LABEL" ∈ ([] : List String)
    ∧ ¬(∃ e ∈ eventsOf (uploadNodes c2BadInput ⟨[], []⟩).1,
        ("Found columns: " ++ String.intercalate ", " ([] : List String)) ∈ errorDetails e) := by
  refine ⟨by decide, by decide, ?_⟩
  decide

/-- C2 (amended): for every node run with connection info present whose
first invalid file parses with a NON-EMPTY header list lacking `LABEL`,
the run emits exactly one terminal event, that event is the
`missing required "LABEL" column` error whose details include
`Found columns: ` followed by the comma-joined headers, and no store
operation at all is issued (no driver, no session, no write). -/
theorem claim_C2_missing_label_error (inp : RunInput) (g0 : Graph)
    (pre post : List InFile) (f : InFile) (h : List String) (rows : List Row)
    (hfiles : inp.files = pre ++ f :: post)
    (hc1 : connPresent inp.connectionUrl = true)
    (hc2 : connPresent inp.username = true)
    (hc3 : connPresent inp.password = true)
    (hpre : ∀ f' ∈ pre, validNodeFile f' = true)
    (hok : f.parseResult = .ok (h, rows))
    (hemp : h.isEmpty = false)
    (hlab : "LABEL" ∉ h) :
    (terminalCount (uploadNodes inp g0).1 = 1
     ∧ (eventsOf (uploadNodes inp g0).1).filter isTerminal
        = [Event.error ("File \"" ++ f.name ++ "\" is missing required \"LABEL\" column")
            ["The CSV file must have a column named \"LABEL\" for the node type.",
             "Found columns: " ++ String.intercalate ", " h]]
     ∧ opsOf (uploadNodes inp g0).1 = []) := by
  have hne : ¬inp.files.isEmpty := by
    rw [hfiles]
    simp
  have hfi := nodeParseLoop_first_invalid pre f post (pre ++ f :: post).length 0 [] 0 h rows
    hpre hok hemp hlab
  have hps := nodeParseLoop_spec (pre ++ f :: post) (pre ++ f :: post).length 0 [] 0 (by omega)
  simp only [List.length_append, List.length_cons] at hps hfi
  simp only [uploadNodes]
  rw [if_neg hne, hfiles, if_neg (by simp [hc1, hc2, hc3])]
  simp only [List.length_append, List.length_cons]
  rw [show (nodeParseLoop (pre.length + (post.length + 1)) 0 (pre ++ f :: post) [] 0).2
      = none from hfi.1]
  refine ⟨?_, ?_, ?_⟩
  · simp [hps.2.2.2.2.1 hfi.1]
  · simp only [eventsOf_append, eventsOf_cons_ev, eventsOf_nil, List.singleton_append,
      List.filter]
    rw [show isTerminal (Event.progress 5 "Parsing CSV files...") = false from rfl]
    exact hfi.2
  · simp [opsOf_append, hps.2.2.1]

def c2GoodFile : InFile := ⟨"good.csv", .ok (["LABEL"], [])⟩

def c2BadFile : InFile := ⟨"bad.csv", .ok (["id", "name"], [[("id", "1"), ("name", "Ann")]])⟩

def c2AmInput : RunInput :=
  ⟨[c2GoodFile, c2BadFile], some "bolt://h", some "u", some "p", false, false, none, "err"⟩

/-- Witness for the amended C2 at the spec's own scenario (header
`id,name`): the single terminal event is the missing-`LABEL` error with
`Found columns: id, name` in its details, and no store operation runs. -/
theorem claim_C2_witness :
    (eventsOf (uploadNodes c2AmInput ⟨[], []⟩).1).filter isTerminal
      = [Event.error "File \"bad.csv\" is missing required \"LABEL\" column"
          ["The CSV file must have a column named \"LABEL\" for the node type.",
           "Found columns: id, name"]]
    ∧ opsOf (uploadNodes c2AmInput ⟨[], []⟩).1 = [] := by
  have hres := claim_C2_missing_label_error c2AmInput ⟨[], []⟩ [c2GoodFile] []
    c2BadFile ["id", "name"] [[("id", "1"), ("name", "Ann")]]
    rfl rfl rfl rfl (by decide) rfl rfl (by decide)
  exact ⟨hres.2.1, hres.2.2⟩

/-- C3: batches are consecutive slices in input row order, the writer is
invoked `⌈n / batchSize⌉` times per group (one `executeWrite` per slice,
in slice order), a group of 2500 rows with batch size 1000 yields slices
of sizes 1000, 1000, 500 in that order, and the batch sizes are the fixed
constants 1000 (nodes) and 5000 (relationships). -/
theorem claim_C3_batch_slicing :
    nodeBatchSize = 1000 ∧ relBatchSize = 5000
    ∧ (∀ (k : Nat), k ≠ 0 → ∀ (rows : List Row),
        (sliceBatches k rows).length = (rows.length + k - 1) / k
        ∧ (sliceBatches k rows).flatten = rows)
    ∧ (∀ (label : String) (s : WState) (rows : List Row),
        opsOf (nodeWriteBatches none label (sliceBatches nodeBatchSize rows) s).1
          = (sliceBatches nodeBatchSize rows).map (Op.writeNodes label))
    ∧ (∀ (T : Nat) (rt : String) (s : WState) (rows : List Row),
        opsOf (relWriteBatches none T rt (sliceBatches relBatchSize rows) s).1
          = (sliceBatches relBatchSize rows).map (fun b => Op.writeRels rt (relKeys b) b))
    ∧ (sliceBatches 1000 (List.replicate 2500 ([] : Row))).map List.length
        = [1000, 1000, 500] := by
  refine ⟨rfl, rfl, ?_, ?_, ?_, ?_⟩
  · intro k hk rows
    constructor
    · have h1 := congrArg List.length (sliceBatches_map_length hk rows)
      rw [List.length_map] at h1
      rw [h1, chunkLens_length hk]
    · exact sliceBatches_flatten hk rows
  · intro label s rows
    exact opsOf_nodeWriteBatches (sliceBatches nodeBatchSize rows) label s
  · intro T rt s rows
    exact opsOf_relWriteBatches (sliceBatches relBatchSize rows) T rt s
  · rw [sliceBatches_map_length (by norm_num)]
    simp only [List.length_replicate]
    decide

/-- Witness for C3 at concrete inputs: 7 rows with batch size 3 give
`⌈7/3⌉ = 3` writer invocations whose concatenation is the original rows. -/
theorem claim_C3_witness :
    (3 : Nat) ≠ 0
    ∧ (sliceBatches 3 (List.replicate 7 ([] : Row))).length = (7 + 3 - 1) / 3
    ∧ (sliceBatches 3 (List.replicate 7 ([] : Row))).flatten = List.replicate 7 ([] : Row) := by
  refine ⟨by decide, ?_⟩
  have h := claim_C3_batch_slicing.2.2.1 3 (by decide) (List.replicate 7 ([] : Row))
  simpa using h

/-- C4: rows whose grouping-key value (`LABEL` for nodes, `TYPE` for
relationships) is empty or absent appear in no group, are never part of a
write-transaction batch, contribute nothing to the final summary counts
(the node summary counts exactly the rows with non-empty `LABEL`, the
relationship summary sums only over grouped rows), and no error event is
emitted for them — a fully valid run still ends in the success summary. -/
theorem claim_C4_empty_key_rows_dropped :
    (∀ (key : String) (proj : Row → Row) (rows : List Row),
       (∀ g ∈ groupRows key proj rows, g.1 ≠ ""
          ∧ ∀ v ∈ g.2, ∃ r ∈ rows, rowVal key r = g.1 ∧ v = proj r)
       ∧ groupsSize (groupRows key proj rows) = groupedCount key rows)
    ∧ (∀ (inp : RunInput) (g0 : Graph),
        connPresent inp.connectionUrl = true → connPresent inp.username = true →
        connPresent inp.password = true → inp.files ≠ [] →
        (∀ f ∈ inp.files, validNodeFile f = true) →
        inp.driverFails = false → inp.failAt = none →
        successEvents (uploadNodes inp g0).1
          = [(inp.files.length,
              (inp.files.map (fun f => groupedCount "LABEL" (parsedOf f).rows)).sum)]
        ∧ (∀ m d, Event.error m d ∉ eventsOf (uploadNodes inp g0).1)
        ∧ (∀ o ∈ opsOf (uploadNodes inp g0).1, ∀ label batch,
            o = Op.writeNodes label batch →
            label ≠ "" ∧ ∀ v ∈ batch, ∃ f ∈ inp.files, ∃ r ∈ (parsedOf f).rows,
              rowVal "LABEL" r = label ∧ v = stripLabel r))
    ∧ (∀ (inp : RunInput) (g0 : Graph),
        connPresent inp.connectionUrl = true → connPresent inp.username = true →
        connPresent inp.password = true → inp.files ≠ [] →
        (∀ f ∈ inp.files, validRelFile f = true) →
        inp.driverFails = false → inp.failAt = none →
        successEvents (uploadRelationships inp g0).1
          = [(inp.files.length, relCreatedCount g0.nodes (inp.files.map parsedOf))]
        ∧ (∀ m d, Event.error m d ∉ eventsOf (uploadRelationships inp g0).1)
        ∧ (∀ o ∈ opsOf (uploadRelationships inp g0).1, ∀ rt keys batch,
            o = Op.writeRels rt keys batch →
            rt ≠ "" ∧ ∀ r ∈ batch, ∃ f ∈ inp.files, r ∈ (parsedOf f).rows
              ∧ rowVal "TYPE" r = rt)) := by
  refine ⟨?_, ?_, ?_⟩
  · intro key proj rows
    exact ⟨fun g hg => groupRows_mem key proj rows g hg, groupsSize_groupRows key proj rows⟩
  · intro inp g0 hc1 hc2 hc3 hne hv hdf hfa
    obtain ⟨h1, h2, -, -, h5⟩ := uploadNodes_success_run inp g0 hc1 hc2 hc3 hne hv hdf hfa
    exact ⟨h1, h2, h5⟩
  · intro inp g0 hc1 hc2 hc3 hne hv hdf hfa
    obtain ⟨h1, h2, -, h4⟩ :=
      uploadRelationships_success_run inp g0 hc1 hc2 hc3 hne hv hdf hfa
    refine ⟨h1, h2, ?_⟩
    intro o ho rt keys batch hwr
    obtain ⟨ha, -, -, hd⟩ := h4 o ho rt keys batch hwr
    exact ⟨ha, hd⟩

def c4File : InFile := ⟨"n.csv", .ok (["LABEL", "id"],
  [[("LABEL", ""), ("id", "0")], [("LABEL", "P"), ("id", "1")], [("id", "2")]])⟩

def c4Input : RunInput :=
  ⟨[c4File], some "bolt://h", some "u", some "p", false, false, none, "err"⟩

/-- Witness for C4 at a concrete run with one empty-`LABEL` row and one
absent-`LABEL` row: the summary counts only the single grouped row. -/
theorem claim_C4_witness :
    successEvents (uploadNodes c4Input ⟨[], []⟩).1 = [(1, 1)] := by
  have h := (claim_C4_empty_key_rows_dropped.2.1 c4Input ⟨[], []⟩
    rfl rfl rfl (by simp [c4Input]) (by decide) rfl rfl).1
  rw [h]
  decide

/-- C5: relationship endpoints are matched by the `id` property alone —
the match counts are invariant under relabelling every store node and
depend only on the row's `FROM_ID`/`TO_ID` fields (`FROM_LABEL` and
`TO_LABEL` never constrain them); when exactly one node matches each
endpoint exactly one relationship is created; a row with an unmatched
endpoint contributes 0, and a successful run's `totalRows` is exactly the
sum of these per-row counts — unmatched rows do not abort the run. -/
theorem claim_C5_endpoint_matching_by_id :
    (∀ (L : String) (nodes : List GNode) (r : Row),
       createdForRow (relabelNodes L nodes) r = createdForRow nodes r)
    ∧ (∀ (nodes : List GNode) (r r' : Row),
       r.lookup "FROM_ID" = r'.lookup "FROM_ID" → r.lookup "TO_ID" = r'.lookup "TO_ID" →
       createdForRow nodes r = createdForRow nodes r')
    ∧ (∀ (nodes : List GNode) (r : Row),
       idMatches nodes (r.lookup "FROM_ID") = 1 → idMatches nodes (r.lookup "TO_ID") = 1 →
       createdForRow nodes r = 1)
    ∧ (∀ (nodes : List GNode) (r : Row),
       idMatches nodes (r.lookup "FROM_ID") = 0 ∨ idMatches nodes (r.lookup "TO_ID") = 0 →
       createdForRow nodes r = 0)
    ∧ (∀ (inp : RunInput) (g0 : Graph),
        connPresent inp.connectionUrl = true → connPresent inp.username = true →
        connPresent inp.password = true → inp.files ≠ [] →
        (∀ f ∈ inp.files, validRelFile f = true) →
        inp.driverFails = false → inp.failAt = none →
        successEvents (uploadRelationships inp g0).1
          = [(inp.files.length, relCreatedCount g0.nodes (inp.files.map parsedOf))]
        ∧ (∀ m d, Event.error m d ∉ eventsOf (uploadRelationships inp g0).1)) := by
  refine ⟨?_, ?_, ?_, ?_, ?_⟩
  · intro L nodes r
    exact createdForRow_relabel L nodes r
  · intro nodes r r' h1 h2
    simp [createdForRow, h1, h2]
  · intro nodes r h1 h2
    simp [createdForRow, h1, h2]
  · intro nodes r h
    rcases h with h | h <;> simp [createdForRow, h]
  · intro inp g0 hc1 hc2 hc3 hne hv hdf hfa
    obtain ⟨h1, h2, -, -⟩ :=
      uploadRelationships_success_run inp g0 hc1 hc2 hc3 hne hv hdf hfa
    exact ⟨h1, h2⟩

def c5File : InFile := ⟨"r.csv", .ok (["TYPE", "FROM_LABEL", "FROM_ID", "TO_LABEL", "TO_ID"],
  [[("TYPE", "KNOWS"), ("FROM_LABEL", "Person"), ("FROM_ID", "1"),
    ("TO_LABEL", "Person"), ("TO_ID", "2")],
   [("TYPE", "KNOWS"), ("FROM_LABEL", "Person"), ("FROM_ID", "404"),
    ("TO_LABEL", "Person"), ("TO_ID", "2")]])⟩

def c5Input : RunInput :=
  ⟨[c5File], some "bolt://h", some "u", some "p", false, false, none, "err"⟩

def c5Graph : Graph :=
  ⟨[⟨"Person", [("id", "1")]⟩, ⟨"Other", [("id", "2")]⟩], []⟩

/-- Witness for C5 at a concrete run: one row matches (label `Other` does
not prevent the `id`-only match of node 2), the row with the unknown
`FROM_ID` 404 contributes 0, and the run still ends in success with
`totalRows = 1`. -/
theorem claim_C5_witness :
    successEvents (uploadRelationships c5Input c5Graph).1 = [(1, 1)] := by
  have h := (claim_C5_endpoint_matching_by_id.2.2.2.2 c5Input c5Graph
    rfl rfl rfl (by simp [c5Input]) (by decide) rfl rfl).1
  rw [h]
  decide

/-- C6: node upload is unconditional creation — a successful run appends
to the store exactly the grouped rows as new nodes, a quantity that does
not depend on the store's prior contents, so running the same input twice
adds twice as many nodes as one run; and the grouping column `LABEL` is
excluded from every created node's property set. -/
theorem claim_C6_not_idempotent (inp : RunInput) (g0 : Graph)
    (hc1 : connPresent inp.connectionUrl = true)
    (hc2 : connPresent inp.username = true)
    (hc3 : connPresent inp.password = true)
    (hne : inp.files ≠ [])
    (hv : ∀ f ∈ inp.files, validNodeFile f = true)
    (hdf : inp.driverFails = false)
    (hfa : inp.failAt = none) :
    ((uploadNodes inp g0).2.nodes = g0.nodes ++ filesNodes (inp.files.map parsedOf)
     ∧ (uploadNodes inp (uploadNodes inp g0).2).2.nodes.length
         = g0.nodes.length + 2 * (filesNodes (inp.files.map parsedOf)).length
     ∧ (∀ nd ∈ filesNodes (inp.files.map parsedOf), "LABEL" ∉ rowKeys nd.props)) := by
  obtain ⟨-, -, hN1, -, -⟩ := uploadNodes_success_run inp g0 hc1 hc2 hc3 hne hv hdf hfa
  obtain ⟨-, -, hN2, -, -⟩ := uploadNodes_success_run inp (uploadNodes inp g0).2
    hc1 hc2 hc3 hne hv hdf hfa
  refine ⟨hN1, ?_, ?_⟩
  · rw [hN2, hN1]
    simp [List.length_append]
    omega
  · intro nd hnd
    obtain ⟨l1, hl1, hnd1⟩ := List.mem_flatten.mp hnd
    obtain ⟨pf, hpf, hl1e⟩ := List.mem_map.mp hl1
    rw [← hl1e] at hnd1
    obtain ⟨l2, hl2, hnd2⟩ := List.mem_flatten.mp hnd1
    obtain ⟨g, hg, hl2e⟩ := List.mem_map.mp hl2
    rw [← hl2e] at hnd2
    obtain ⟨v, hv2, hnde⟩ := List.mem_map.mp hnd2
    have hgood := groupRows_mem "LABEL" stripLabel pf.rows g hg
    obtain ⟨r, -, -, hrs⟩ := hgood.2 v hv2
    rw [← hnde]
    simpa [hrs] using stripLabel_no_LABEL r

def c6File : InFile := ⟨"n.csv", .ok (["LABEL", "id"],
  [[("LABEL", "P"), ("id", "1")], [("LABEL", "P"), ("id", "2")]])⟩

def c6Input : RunInput :=
  ⟨[c6File], some "bolt://h", some "u", some "p", false, false, none, "err"⟩

/-- Witness for C6 at a concrete run: uploading the same 2-row file twice
onto an empty store yields 4 nodes. -/
theorem claim_C6_witness :
    (uploadNodes c6Input (uploadNodes c6Input ⟨[], []⟩).2).2.nodes.length = 4 := by
  have h := (claim_C6_not_idempotent c6Input ⟨[], []⟩
    rfl rfl rfl (by simp [c6Input]) (by decide) rfl rfl).2.1
  rw [h]
  decide

def c7File : InFile := ⟨"n.csv", .ok (["LABEL", "id"],
  [[("LABEL", "A"), ("id", "1")], [("LABEL", "B"), ("id", "2")]])⟩

def c7Input : RunInput :=
  ⟨[c7File], some "bolt://h", some "u", some "p", false, false, none, "err"⟩

/-- Counterexample to C7 as stated: a node run with two batches (two
label groups) issues its second batch write with NO progress event after
the first one — the node route's writing phase emits no per-batch
progress at all. -/
theorem claim_C7_counterexample :
    writingProgressOk (uploadNodes c7Input ⟨[], []⟩).1 = false := by
  decide

/-- C7 (amended): only the relationship route reports per-batch progress:
there a progress event follows every batch write before the next one, and
every writing-phase percent has the form
`Math.round(30 + (processed / total) * 65)` with `processed ≤ total`.
The node route emits no progress at all during its writing phase — its
percents jump from 25 to 95. -/
theorem claim_C7_per_batch_progress_rel_only (inp : RunInput) (g0 : Graph) :
    (writingProgressOk (uploadRelationships inp g0).1 = true
     ∧ (∀ q ∈ progressPercents (uploadNodes inp g0).1, q ≤ 25 ∨ q = 95 ∨ q = 100)
     ∧ (∀ q ∈ progressPercents (uploadRelationships inp g0).1,
         q ∈ ([5, 15, 20, 25, 30, 95, 100] : List ℚ)
         ∨ (∃ i n, i < n ∧ q = parsePercent i n)
         ∨ (∃ p T, p ≤ T ∧ q = relPercent p T))) := by
  obtain ⟨-, -, -, -, hn5, -, -⟩ := uploadNodes_run_spec inp g0
  obtain ⟨-, -, -, -, hr5, -, -, hr8⟩ := uploadRelationships_run_spec inp g0
  exact ⟨hr8, hn5, hr5⟩

/-- Witness for the amended C7 at a concrete relationship run: the
per-batch progress discipline holds on its trace. -/
theorem claim_C7_witness :
    writingProgressOk (uploadRelationships c5Input c5Graph).1 = true :=
  (claim_C7_per_batch_progress_rel_only c5Input c5Graph).1

def c8File : InFile := ⟨"a.csv", .ok (["LABEL"], [])⟩

def c8Input : RunInput :=
  ⟨[c8File, c8File, c8File], some "bolt://h", some "u", some "p", false, false, none, "err"⟩

lemma c8_percents :
    progressPercents (uploadNodes c8Input ⟨[], []⟩).1
      = [5, 5, 25/3, 35/3, 15, 20, 25, 95, 100] := by
  norm_num +decide [uploadNodes, c8Input, c8File, nodeParseLoop, parsePercent,
    nodeWriteFiles, nodeWriteGroups, nodeWriteBatches, groupRows, connPresent,
    writeFails]

/-- Counterexample to C8 as stated: with three input files the per-file
parsing progress line `5 + (fileIndex / files.length) * 10` emits the
percent `25/3`, which is not an integer. -/
theorem claim_C8_counterexample :
    ¬(∀ q ∈ progressPercents (uploadNodes c8Input ⟨[], []⟩).1, q.den = 1) := by
  rw [c8_percents]
  intro hAll
  have h := hAll (25/3) (by simp)
  norm_num at h

/-- C8 (amended): every progress percent emitted by either upload entry
point is a rational between 0 and 100 inclusive, and every percent is an
integer except possibly the per-file parsing percents of the form
`5 + (i / n) * 10` with `i < n`. -/
theorem claim_C8_percent_range (inp : RunInput) (g0 : Graph) :
    (∀ q ∈ progressPercents (uploadNodes inp g0).1,
       0 ≤ q ∧ q ≤ 100 ∧ (q.den = 1 ∨ ∃ i n, i < n ∧ q = parsePercent i n))
    ∧ (∀ q ∈ progressPercents (uploadRelationships inp g0).1,
       0 ≤ q ∧ q ≤ 100 ∧ (q.den = 1 ∨ ∃ i n, i < n ∧ q = parsePercent i n)) := by
  obtain ⟨-, -, -, hn4, -, -, -⟩ := uploadNodes_run_spec inp g0
  obtain ⟨-, -, -, hr4, -, -, -, -⟩ := uploadRelationships_run_spec inp g0
  exact ⟨hn4, hr4⟩

/-- Witness for the amended C8 at the concrete three-file run: the
non-integer percent 25/3 is indeed within bounds and of the parse-loop
form. -/
theorem claim_C8_witness :
    0 ≤ (25/3 : ℚ) ∧ (25/3 : ℚ) ≤ 100
    ∧ ((25/3 : ℚ).den = 1 ∨ ∃ i n, i < n ∧ (25/3 : ℚ) = parsePercent i n) :=
  (claim_C8_percent_range c8Input ⟨[], []⟩).1 (25/3) (by rw [c8_percents]; simp)

/-- C9: in every run of either pipeline, whenever a session was opened it
is closed before the run ends, and whenever a driver connection was
opened the very last store operation of the run is the driver close —
on the success path and on every fatal-error path alike. -/
theorem claim_C9_resources_released (inp : RunInput) (g0 : Graph) :
    ((Op.openSession ∈ opsOf (uploadNodes inp g0).1 →
        Op.closeSession ∈ opsOf (uploadNodes inp g0).1)
     ∧ (Op.openDriver ∈ opsOf (uploadNodes inp g0).1 →
        (opsOf (uploadNodes inp g0).1).getLast? = some Op.closeDriver)
     ∧ (Op.openSession ∈ opsOf (uploadRelationships inp g0).1 →
        Op.closeSession ∈ opsOf (uploadRelationships inp g0).1)
     ∧ (Op.openDriver ∈ opsOf (uploadRelationships inp g0).1 →
        (opsOf (uploadRelationships inp g0).1).getLast? = some Op.closeDriver)) := by
  obtain ⟨-, -, -, -, -, hn6, hn7⟩ := uploadNodes_run_spec inp g0
  obtain ⟨-, -, -, -, -, hr6, hr7, -⟩ := uploadRelationships_run_spec inp g0
  exact ⟨hn6, hn7, hr6, hr7⟩

def c9Input : RunInput :=
  ⟨[⟨"a.csv", .ok (["LABEL"], [[("LABEL", "P")]])⟩],
   some "bolt://h", some "u", some "p", false, false, some 0, "boom"⟩

/-- Witness for C9 at a concrete run whose first batch write throws: the
driver was opened and the last store operation is still the driver
close. -/
theorem claim_C9_witness :
    (opsOf (uploadNodes c9Input ⟨[], []⟩).1).getLast? = some Op.closeDriver :=
  (claim_C9_resources_released c9Input ⟨[], []⟩).2.1 (by decide)

/-- C10: every relationship batch write derives its property-key list
from the FIRST row of the batch alone (that row's keys minus the five
required columns), and the property map written for every row of the
batch only ever uses keys from that list — a column present only in a
later row of the batch is never written as a property. -/
theorem claim_C10_property_keys_from_first_row (inp : RunInput) (g0 : Graph) :
    ∀ o ∈ opsOf (uploadRelationships inp g0).1, ∀ rt keys batch,
      o = Op.writeRels rt keys batch →
      (∃ r0 rest, batch = r0 :: rest
        ∧ keys = (rowKeys r0).filter (fun k => !(REQUIRED_COLUMNS.contains k)))
      ∧ (∀ r ∈ batch, ∀ kv ∈ relProps keys r, kv.1 ∈ keys) := by
  intro o ho rt keys batch hwr
  obtain ⟨hbne, hkeys⟩ := uploadRelationships_writeRels_ops inp g0 o ho rt keys batch hwr
  constructor
  · cases batch with
    | nil => exact absurd rfl hbne
    | cons r0 rest =>
      refine ⟨r0, rest, rfl, ?_⟩
      rw [hkeys]
      rfl
  · intro r hr kv hkv
    exact relProps_keys_subset keys r kv hkv

def c10File : InFile := ⟨"r.csv",
  .ok (["TYPE", "FROM_LABEL", "FROM_ID", "TO_LABEL", "TO_ID", "since"],
  [[("TYPE", "K"), ("FROM_LABEL", "A"), ("FROM_ID", "1"),
    ("TO_LABEL", "B"), ("TO_ID", "2")],
   [("TYPE", "K"), ("FROM_LABEL", "A"), ("FROM_ID", "1"),
    ("TO_LABEL", "B"), ("TO_ID", "2"), ("since", "2020")]])⟩

def c10Input : RunInput :=
  ⟨[c10File], some "bolt://h", some "u", some "p", false, false, none, "err"⟩

def c10Batch : List Row :=
  [[("TYPE", "K"), ("FROM_LABEL", "A"), ("FROM_ID", "1"),
    ("TO_LABEL", "B"), ("TO_ID", "2")],
   [("TYPE", "K"), ("FROM_LABEL", "A"), ("FROM_ID", "1"),
    ("TO_LABEL", "B"), ("TO_ID", "2"), ("since", "2020")]]

/-- Witness for C10 at a concrete run whose second batch row has a
`since` column the first row lacks: the recorded write carries the empty
property-key list, so `since` is never written. -/
theorem claim_C10_witness :
    (∃ r0 rest, c10Batch = r0 :: rest
      ∧ ([] : List String) = (rowKeys r0).filter (fun k => !(REQUIRED_COLUMNS.contains k)))
    ∧ (∀ r ∈ c10Batch, ∀ kv ∈ relProps [] r, kv.1 ∈ ([] : List String)) :=
  claim_C10_property_keys_from_first_row c10Input ⟨[], []⟩
    (Op.writeRels "K" [] c10Batch) (by decide) "K" [] c10Batch rfl
